import Mathlib

/-!
A shallow embedding of the query-compilation core of the `go-fluent-sql`
repository: the identifier/operator validation layer
(`internal/validation/identifier.go`, `internal/validation/operator.go`),
the clause model (`dialect/dialect.go`), the MySQL grammar
(`dialect/mysql.go`) and the builder compilation entry points (`builder.go`).

Conventions used throughout:
  * Go's `error` results are modelled as `Option Err` (`none` = `nil`);
    functions returning `(string, error)` become `String × Option Err`,
    functions returning `(string, []any, error)` become
    `String × List GoValue × Option Err`.  Every error return site of the
    Go compile methods is literally `return "", nil, err`, which the
    wrappers below reproduce.
  * Go maps (`map[string]any`) are modelled as association lists with
    reads via `List.lookup`; the Go code never relies on map iteration
    order (it always sorts the keys first).
  * Go strings are Lean `String`s; byte-level operations (`len`, sorting)
    agree with the Lean char-level ones on the ASCII inputs the validator
    admits, and where they can differ this is noted at the definition.
-/

namespace FluentSQL

/-- A Go `any` value bound as a query argument.  Compilation never
inspects bound values, so a small universe of scalars suffices to state
every property about argument lists. -/
inductive GoValue where
  | str (s : String)
  | int (n : Int)
  | null
deriving DecidableEq, Repr

/-- The errors produced by the validation layer and the dialect package:
`IdentifierError` and `OperatorError` from `internal/validation`, the
sentinel `DialectError`s from `dialect/dialect.go`, and `ErrNoExecutor`
from the root package. -/
inductive Err where
  | identifier (id reason : String)
  | operator (op reason : String)
  | noTable
  | noColumns
  | emptyBatch
  | inconsistentBatch
  | emptyWhereIn
  | invalidBetween
  | noExecutor
deriving DecidableEq, Repr

/-- `IdentifierError.Error()`: "fluentsql: invalid identifier ..." -/
def identifierErrorString (id reason : String) : String :=
  if id = "" then "fluentsql: invalid identifier: " ++ reason
  else "fluentsql: invalid identifier '" ++ id ++ "': " ++ reason

/-! ## Identifier validation (`internal/validation/identifier.go`) -/

/-- The character class `[a-zA-Z_]` (`Char.isAlpha` is exactly ASCII
`[a-zA-Z]` in Lean, matching the Go regexp's ASCII class). -/
def isIdentStart (c : Char) : Bool := c.isAlpha || c = '_'

/-- The character class `[a-zA-Z0-9_]`. -/
def isIdentChar (c : Char) : Bool := c.isAlphanum || c = '_'

/-- One dot-free identifier component: `[a-zA-Z_][a-zA-Z0-9_]*`. -/
def matchIdentPart : List Char → Bool
  | [] => false
  | c :: cs => isIdentStart c && cs.all isIdentChar

/-- `strings.Split(s, ".")` at the character level (Go's `Split` on a
one-byte separator; `"" ↦ [""]`, `"a.b" ↦ ["a","b"]`, `".a" ↦ ["","a"]`). -/
def splitOnDotChars : List Char → List (List Char)
  | [] => [[]]
  | c :: cs =>
    let r := splitOnDotChars cs
    if c = '.' then [] :: r
    else
      match r with
      | [] => [[c]]
      | p :: ps => (c :: p) :: ps

/-- `identifierRegex = ^[a-zA-Z_][a-zA-Z0-9_]*(\.[a-zA-Z_][a-zA-Z0-9_]*)?$`.
Because `.` is not an identifier character, a string matches exactly when
splitting it on `.` yields one or two components each matching
`[a-zA-Z_][a-zA-Z0-9_]*`. -/
def identifierRegexMatch (s : String) : Bool :=
  match splitOnDotChars s.data with
  | [p] => matchIdentPart p
  | [p, q] => matchIdentPart p && matchIdentPart q
  | _ => false

/-- `ValidateIdentifier`: empty check, byte-length check (`len(id)` in Go
counts UTF-8 bytes, hence `utf8ByteSize`), then the regexp. -/
def ValidateIdentifier (id : String) : Option Err :=
  if id = "" then
    some (.identifier id "identifier cannot be empty")
  else if id.utf8ByteSize > 128 then
    some (.identifier id "identifier exceeds maximum length of 128 characters")
  else if !identifierRegexMatch id then
    some (.identifier id
      "identifier contains invalid characters; only letters, numbers, underscores, and dots are allowed")
  else none

/-- The RE2 class `\s = [\t\n\f\r ]` used by `aliasRegex`. -/
def isGoSpace (c : Char) : Bool :=
  c = ' ' || c = '\t' || c = '\n' || c = '\x0c' || c = '\r'

/-- `aliasRegex = (?i)^([a-zA-Z_][a-zA-Z0-9_]*)\s+(?:as\s+)?([a-zA-Z_][a-zA-Z0-9_]*)$`.
Identifier characters, spaces and the letters of `as` are disjoint enough
that the regexp is deterministic: take the leading identifier, the
mandatory space run, then either a case-insensitive `as` followed by a
space run and the alias, or the alias directly.  (When the remainder
starts with `as` + space the no-`as` branch could never match, since the
alias component cannot contain a space, so committing to the `as` branch
agrees with the backtracking semantics.) -/
def aliasRegexMatch (s : String) : Option (String × String) :=
  let cs := s.data
  let ident1 := cs.takeWhile isIdentChar
  let rest1 := cs.dropWhile isIdentChar
  if !matchIdentPart ident1 then none
  else if (rest1.takeWhile isGoSpace).isEmpty then none
  else
    let rest2 := rest1.dropWhile isGoSpace
    match rest2 with
    | a :: s2 :: rest3 =>
      if ((a = 'a' || a = 'A') && (s2 = 's' || s2 = 'S'))
          && !(rest3.takeWhile isGoSpace).isEmpty then
        let rest4 := rest3.dropWhile isGoSpace
        if matchIdentPart rest4 then some (⟨ident1⟩, ⟨rest4⟩) else none
      else
        if matchIdentPart rest2 then some (⟨ident1⟩, ⟨rest2⟩) else none
    | _ =>
      if matchIdentPart rest2 then some (⟨ident1⟩, ⟨rest2⟩) else none

/-- `ValidateTableWithAlias`: parses `"table"`, `"table alias"`,
`"table as alias"` and validates both parts. -/
def ValidateTableWithAlias (table : String) : String × String × Option Err :=
  if table = "" then
    ("", "", some (.identifier table "table name cannot be empty"))
  else
    match aliasRegexMatch table with
    | some (name, aliasName) =>
      match ValidateIdentifier name with
      | some e => ("", "", some e)
      | none =>
        match ValidateIdentifier aliasName with
        | some e =>
          ("", "", some (.identifier aliasName
            ("invalid alias: " ++
              (match e with
               | .identifier i r => identifierErrorString i r
               | _ => ""))))
        | none => (name, aliasName, none)
    | none =>
      match ValidateIdentifier table with
      | some e => ("", "", some e)
      | none => (table, "", none)

/-! ## Operator validation (`internal/validation/operator.go`) -/

/-- The characters trimmed by Go's `strings.TrimSpace` (ASCII part:
space, `\t`, `\n`, `\v`, `\f`, `\r`; the operators in play are ASCII). -/
def isGoTrimSpace (c : Char) : Bool :=
  c = ' ' || c = '\t' || c = '\n' || c = '\x0b' || c = '\x0c' || c = '\r'

/-- `strings.TrimSpace` on the character list. -/
def goTrimSpace (s : String) : String :=
  ⟨((s.data.dropWhile isGoTrimSpace).reverse.dropWhile isGoTrimSpace).reverse⟩

/-- `strings.ToUpper` on the character list (`Char.toUpper` is exactly
the ASCII upper-casing Go performs on the ASCII operator and SQL keyword
strings it is applied to in this code base). -/
def goToUpper (s : String) : String := ⟨s.data.map Char.toUpper⟩

/-- The `allowedOperators` whitelist (as a list; the Go map is a set). -/
def allowedOperators : List String :=
  ["=", "!=", "<>", "<", ">", "<=", ">=",
   "LIKE", "NOT LIKE", "IS", "IS NOT",
   "IN", "NOT IN", "BETWEEN", "NOT BETWEEN", "<=>"]

/-- `ValidateOperator`: upper-case the trimmed operator and check the
whitelist. -/
def ValidateOperator (op : String) : Option Err :=
  let normalized := goToUpper (goTrimSpace op)
  if allowedOperators.contains normalized then none
  else some (.operator op "operator not in allowed list")

/-! ## MySQL identifier wrapping (`dialect/mysql.go`) -/

/-- `strings.Join` (Go's exact semantics). -/
def goJoin (sep : String) : List String → String
  | [] => ""
  | [x] => x
  | x :: xs => x ++ sep ++ goJoin sep xs

/-- `(g *MySQLGrammar) Wrap`: `*` passes through, the identifier is
validated, and each dot component is wrapped in backticks. -/
def Wrap (identifier : String) : String × Option Err :=
  if identifier = "*" then ("*", none)
  else
    match ValidateIdentifier identifier with
    | some e => ("", some e)
    | none =>
      if identifier.data.contains '.' then
        (goJoin "." ((splitOnDotChars identifier.data).map
          (fun p => "`" ++ (⟨p⟩ : String) ++ "`")), none)
      else
        ("`" ++ identifier ++ "`", none)

/-- `(g *MySQLGrammar) WrapTable`: validate the (possibly aliased) table
reference, backtick the name and render `AS` for the alias. -/
def WrapTable (table : String) : String × Option Err :=
  match ValidateTableWithAlias table with
  | (_, _, some e) => ("", some e)
  | (name, aliasName, none) =>
    if aliasName ≠ "" then ("`" ++ name ++ "`" ++ " AS `" ++ aliasName ++ "`", none)
    else ("`" ++ name ++ "`", none)

/-- `(g *MySQLGrammar) Placeholder`: always `?` (the index is ignored). -/
def Placeholder (_index : Nat) : String := "?"

/-! ## Clause model (`dialect/dialect.go`) -/

/-- `WhereType` (an `int` enum in Go; the thirteen declared constants). -/
inductive WhereType where
  | basic | inOp | notInOp | between | notBetween | null | notNull
  | raw | nested | date | year | month | day
deriving DecidableEq, Repr

/-- `WhereBoolean` (`WhereBooleanAnd` / `WhereBooleanOr`). -/
inductive WhereBoolean where
  | and
  | or
deriving DecidableEq, Repr

/-- `WhereBoolean.String()`: `"OR"` for `Or`, `"AND"` otherwise. -/
def WhereBoolean.toSQL : WhereBoolean → String
  | .and => "AND"
  | .or => "OR"

/-- `WhereClause` — the Go struct, as an inductive because `Nested` holds
further clauses.  Field order matches the Go declaration:
`Type, Boolean, Column, Operator, Value, Values, Nested, Raw, Bindings`. -/
inductive WhereClause where
  | mk (type : WhereType) (boolean : WhereBoolean) (column : String)
       (operator : String) (value : GoValue) (values : List GoValue)
       (nested : List WhereClause) (raw : String) (bindings : List GoValue)

def WhereClause.type : WhereClause → WhereType
  | .mk t _ _ _ _ _ _ _ _ => t

def WhereClause.boolean : WhereClause → WhereBoolean
  | .mk _ b _ _ _ _ _ _ _ => b

def WhereClause.column : WhereClause → String
  | .mk _ _ c _ _ _ _ _ _ => c

def WhereClause.operator : WhereClause → String
  | .mk _ _ _ o _ _ _ _ _ => o

def WhereClause.value : WhereClause → GoValue
  | .mk _ _ _ _ v _ _ _ _ => v

def WhereClause.values : WhereClause → List GoValue
  | .mk _ _ _ _ _ vs _ _ _ => vs

def WhereClause.nested : WhereClause → List WhereClause
  | .mk _ _ _ _ _ _ n _ _ => n

def WhereClause.raw : WhereClause → String
  | .mk _ _ _ _ _ _ _ r _ => r

def WhereClause.bindings : WhereClause → List GoValue
  | .mk _ _ _ _ _ _ _ _ b => b

/-- Replace only the `Boolean` connector field of a clause. -/
def WhereClause.setBoolean (b : WhereBoolean) : WhereClause → WhereClause
  | .mk t _ c o v vs n r bi => .mk t b c o v vs n r bi

/-- `OrderClause`.  `OrderDirection` is a Go string type (`"ASC"`/`"DESC"`
are the declared constants, but any string value is representable and the
grammar emits the field verbatim), so it is modelled as `String`. -/
structure OrderClause where
  column : String := ""
  direction : String := ""
  raw : String := ""
deriving DecidableEq, Repr

/-- `JoinClause`.  `JoinType` is a Go string type (`"INNER"`, `"LEFT"`,
`"RIGHT"`, `"CROSS"`), modelled as `String`. -/
structure JoinClause where
  type : String := ""
  table : String := ""
  tableAlias : String := ""
  first : String := ""
  operator : String := ""
  second : String := ""
deriving DecidableEq, Repr

/-- The `Builder` accumulator (`builder.go`), restricted to the fields the
grammar reads plus the accumulated error.  The `executor`/`grammar`/
`scanner` interface references carry no compilation data; the only fact
about them the compile entry points consult is whether `grammar` is `nil`,
kept as `grammarNil`. -/
structure Builder where
  table : String := ""
  tableAlias : String := ""
  columns : List String := []
  distinct : Bool := false
  wheres : List WhereClause := []
  orders : List OrderClause := []
  joins : List JoinClause := []
  groupBy : List String := []
  having : List WhereClause := []
  limit : Option Int := none
  offset : Option Int := none
  err : Option Err := none
  grammarNil : Bool := false

/-! ## Sorted map keys (`sort.Strings` over Go map keys) -/

/-- Go's string ordering: lexicographic byte order, which for UTF-8 agrees
with lexicographic code-point order. -/
def goCharsLe : List Char → List Char → Bool
  | [], _ => true
  | _ :: _, [] => false
  | a :: as, b :: bs => if a < b then true else if b < a then false else goCharsLe as bs

/-- `a <= b` on Go strings. -/
def goStringLe (a b : String) : Bool := goCharsLe a.data b.data

/-- `goStringLe` as a relation, for use with `List.insertionSort`. -/
def StrLe (a b : String) : Prop := goStringLe a b = true

instance : DecidableRel StrLe := fun _ _ => inferInstanceAs (Decidable (_ = true))

/-- `sort.Strings` produces the unique `goStringLe`-sorted permutation of
its input; any sorting algorithm yields the same list of strings, so we
use insertion sort. -/
def sortStrings (l : List String) : List String := List.insertionSort StrLe l

/-- A Go `map[string]any`, as an association list (keys unique in any
value that models an actual Go map). -/
abbrev DataMap := List (String × GoValue)

/-- The `keys := ...; sort.Strings(keys)` idiom: the map's keys in sorted
order. -/
def sortedKeys (data : DataMap) : List String := sortStrings (data.map Prod.fst)

/-- Read `data[key]` (zero value `nil` if absent, which the Go code never
hits on the keys it uses). -/
def mapGet (data : DataMap) (k : String) : GoValue := (data.lookup k).getD .null

/-! ## WHERE compilation (`dialect/mysql.go`, internal helpers)

The Go helpers return `(string, []any, error)` with the first two
components always `""`/`nil` alongside a non-nil error, and every caller
discards them in that case; `Except Err (String × List GoValue)` models
this exactly. -/

/-- `compileWhereBasic`: `wrapped_col OPERATOR_UPPER ?` with the scalar
value as the one argument. -/
def compileWhereBasic (column operator : String) (value : GoValue) :
    Except Err (String × List GoValue) :=
  match Wrap column with
  | (_, some e) => .error e
  | (col, none) =>
    match ValidateOperator operator with
    | some e => .error e
    | none => .ok (col ++ " " ++ goToUpper operator ++ " ?", [value])

/-- `compileWhereIn`: reject an empty value list, then
`wrapped_col (NOT )?IN (?, ..., ?)`. -/
def compileWhereIn (column : String) (values : List GoValue) (isNot : Bool) :
    Except Err (String × List GoValue) :=
  if values.isEmpty then .error .emptyWhereIn
  else
    match Wrap column with
    | (_, some e) => .error e
    | (col, none) =>
      let placeholders := values.map (fun _ => "?")
      let op := if isNot then "NOT IN" else "IN"
      .ok (col ++ " " ++ op ++ " (" ++ goJoin ", " placeholders ++ ")", values)

/-- `compileWhereBetween`: exactly two values, then
`wrapped_col (NOT )?BETWEEN ? AND ?`. -/
def compileWhereBetween (column : String) (values : List GoValue) (isNot : Bool) :
    Except Err (String × List GoValue) :=
  if values.length ≠ 2 then .error .invalidBetween
  else
    match Wrap column with
    | (_, some e) => .error e
    | (col, none) =>
      let op := if isNot then "NOT BETWEEN" else "BETWEEN"
      .ok (col ++ " " ++ op ++ " ? AND ?", values)

/-- `compileWhereNull`: `wrapped_col IS (NOT )?NULL`, no arguments. -/
def compileWhereNull (column : String) (isNot : Bool) :
    Except Err (String × List GoValue) :=
  match Wrap column with
  | (_, some e) => .error e
  | (col, none) =>
    let op := if isNot then "IS NOT NULL" else "IS NULL"
    .ok (col ++ " " ++ op, [])

/-- `compileWhereDate`: `FUNC(wrapped_col) = ?` with the scalar value. -/
def compileWhereDate (column : String) (value : GoValue) (fn : String) :
    Except Err (String × List GoValue) :=
  match Wrap column with
  | (_, some e) => .error e
  | (col, none) => .ok (fn ++ "(" ++ col ++ ") = ?", [value])

mutual

/-- `compileWheres`: walk the predicate list, emitting
` AND `/` OR ` before every clause at index > 0 (split here into the head
clause plus `compileWheresRest` for the remaining, connector-prefixed
clauses, exactly the `i > 0` test of the Go loop). -/
def compileWheres : List WhereClause → Except Err (String × List GoValue)
  | [] => .ok ("", [])
  | w :: rest => do
    let (s, a) ← compileWhere w
    let (s2, a2) ← compileWheresRest rest
    pure (s ++ s2, a ++ a2)

/-- The `i > 0` iterations of the `compileWheres` loop: each clause is
prefixed by its own connector. -/
def compileWheresRest : List WhereClause → Except Err (String × List GoValue)
  | [] => .ok ("", [])
  | w :: rest => do
    let (s, a) ← compileWhere w
    let (s2, a2) ← compileWheresRest rest
    pure (" " ++ w.boolean.toSQL ++ " " ++ s ++ s2, a ++ a2)

/-- `compileWhere`: dispatch on the clause type.  (`WhereType` is modelled
by the thirteen declared constants, so the Go `default: unknown where
type` arm for out-of-range ints is unrepresentable.) -/
def compileWhere : WhereClause → Except Err (String × List GoValue)
  | .mk t _ col op v vals nested raw bindings =>
    match t with
    | .basic => compileWhereBasic col op v
    | .inOp => compileWhereIn col vals false
    | .notInOp => compileWhereIn col vals true
    | .between => compileWhereBetween col vals false
    | .notBetween => compileWhereBetween col vals true
    | .null => compileWhereNull col false
    | .notNull => compileWhereNull col true
    | .raw => .ok (raw, bindings)
    | .nested => compileWhereNested nested
    | .date => compileWhereDate col v "DATE"
    | .year => compileWhereDate col v "YEAR"
    | .month => compileWhereDate col v "MONTH"
    | .day => compileWhereDate col v "DAY"

/-- `compileWhereNested` (taking the clause's `Nested` field): an empty
group compiles to the empty string with no error; otherwise the children
are compiled as a predicate list and parenthesized. -/
def compileWhereNested (nested : List WhereClause) :
    Except Err (String × List GoValue) :=
  if nested.isEmpty then .ok ("", [])
  else do
    let (s, a) ← compileWheres nested
    pure ("(" ++ s ++ ")", a)

end

/-- `compileJoin`: `CROSS JOIN` has no `ON`; other kinds wrap both columns,
validate the operator, and emit it verbatim. -/
def compileJoin (join : JoinClause) : Except Err String :=
  match WrapTable join.table with
  | (_, some e) => .error e
  | (table, none) =>
    if join.type = "CROSS" then .ok ("CROSS JOIN " ++ table)
    else
      match Wrap join.first with
      | (_, some e) => .error e
      | (first, none) =>
        match Wrap join.second with
        | (_, some e) => .error e
        | (second, none) =>
          match ValidateOperator join.operator with
          | some e => .error e
          | none =>
            .ok (join.type ++ " JOIN " ++ table ++ " ON " ++ first ++ " " ++
              join.operator ++ " " ++ second)

/-! ## Top-level compilation (`dialect/mysql.go`)

Each `Compile*` method returns `(string, []any, error)`.  In the Go
source every error return site of every compile method is literally
`return "", nil, err`; each method below is therefore written as an
`Except`-valued core (`compile*E`, mirroring the happy path and the first
error raised) plus a wrapper realizing those `return "", nil, err` sites. -/

/-- `fmt.Sprintf("%d", n)` for one decimal digit. -/
def digitChar (d : Nat) : Char :=
  if d = 0 then '0' else if d = 1 then '1' else if d = 2 then '2'
  else if d = 3 then '3' else if d = 4 then '4' else if d = 5 then '5'
  else if d = 6 then '6' else if d = 7 then '7' else if d = 8 then '8' else '9'

/-- Decimal digits of a natural number, most significant first. -/
def natDecimal (n : Nat) : List Char :=
  if n < 10 then [digitChar n]
  else natDecimal (n / 10) ++ [digitChar (n % 10)]
decreasing_by exact Nat.div_lt_self (by omega) (by omega)

/-- `fmt.Sprintf("%d", n)` for a Go int. -/
def intToDecimal (n : Int) : String :=
  if n < 0 then ⟨'-' :: natDecimal n.natAbs⟩ else ⟨natDecimal n.natAbs⟩

/-- Lift a Go `(string, error)` pair into `Except`(the caller pattern
`x, err := ...; if err != nil { return "", nil, err }`). -/
def exceptOfPair (p : String × Option Err) : Except Err String :=
  match p with
  | (_, some e) => .error e
  | (s, none) => .ok s

/-- The column loop of `CompileSelect`: a column containing a space or
parenthesis is passed through as a raw expression, anything else is
wrapped (and validated). -/
def wrapSelectColumns : List String → Except Err (List String)
  | [] => .ok []
  | col :: rest => do
    let w ← if col.data.any (fun c => c = ' ' || c = '(' || c = ')') then pure col
            else exceptOfPair (Wrap col)
    let ws ← wrapSelectColumns rest
    pure (w :: ws)

/-- A wrap-each-element loop (`GROUP BY` columns, `INSERT` keys, ...). -/
def wrapAll : List String → Except Err (List String)
  | [] => .ok []
  | k :: rest => do
    let w ← exceptOfPair (Wrap k)
    let ws ← wrapAll rest
    pure (w :: ws)

/-- The `ORDER BY` loop of `CompileSelect`: a clause with non-empty `Raw`
is emitted verbatim, otherwise the wrapped column plus the direction
string. -/
def compileOrderParts : List OrderClause → Except Err (List String)
  | [] => .ok []
  | o :: rest => do
    let part ← if o.raw ≠ "" then pure o.raw
               else do
                 let w ← exceptOfPair (Wrap o.column)
                 pure (w ++ " " ++ o.direction)
    let parts ← compileOrderParts rest
    pure (part :: parts)

/-- The `JOIN` loop of `CompileSelect`: each join is appended as
`" " + joinSQL`. -/
def compileJoins : List JoinClause → Except Err String
  | [] => .ok ""
  | j :: rest => do
    let s ← compileJoin j
    let s2 ← compileJoins rest
    pure (" " ++ s ++ s2)

/-- The `if len(wheres) > 0 { ... " WHERE " ... }` step shared by several
compile methods: the prefixed predicate string and its arguments. -/
def wherePart (prefixStr : String) (wheres : List WhereClause) :
    Except Err (String × List GoValue) :=
  if wheres.isEmpty then .ok ("", [])
  else do
    let (s, a) ← compileWheres wheres
    pure (prefixStr ++ s, a)

/-- The `SELECT ` / `SELECT DISTINCT ` head of `CompileSelect`. -/
def selectHead (b : Builder) : String :=
  "SELECT " ++ (if b.distinct then "DISTINCT " else "")

/-- The column list of `CompileSelect`: `*` when no columns are selected. -/
def selectColumnsPart (cols : List String) : Except Err String :=
  if cols.isEmpty then .ok "*"
  else do
    let ws ← wrapSelectColumns cols
    pure (goJoin ", " ws)

/-- The `GROUP BY` section of `CompileSelect` (empty when no grouping). -/
def groupByPart (gs : List String) : Except Err String :=
  if gs.isEmpty then .ok ""
  else do
    let ws ← wrapAll gs
    pure (" GROUP BY " ++ goJoin ", " ws)

/-- The `ORDER BY` section of `CompileSelect` (empty when no ordering). -/
def orderByPart (os : List OrderClause) : Except Err String :=
  if os.isEmpty then .ok ""
  else do
    let parts ← compileOrderParts os
    pure (" ORDER BY " ++ goJoin ", " parts)

/-- The `LIMIT` section (`fmt.Sprintf(" LIMIT %d", *limit)`). -/
def limitPart : Option Int → String
  | some n => " LIMIT " ++ intToDecimal n
  | none => ""

/-- The `OFFSET` section (`fmt.Sprintf(" OFFSET %d", *offset)`). -/
def offsetPart : Option Int → String
  | some n => " OFFSET " ++ intToDecimal n
  | none => ""

/-- `CompileSelect`, happy path and first error. -/
def compileSelectE (b : Builder) : Except Err (String × List GoValue) :=
  if b.table = "" then .error .noTable
  else do
    let cols ← selectColumnsPart b.columns
    let table ← exceptOfPair (WrapTable b.table)
    let joinStr ← compileJoins b.joins
    let (whereStr, whereArgs) ← wherePart " WHERE " b.wheres
    let groupStr ← groupByPart b.groupBy
    let (havingStr, havingArgs) ← wherePart " HAVING " b.having
    let orderStr ← orderByPart b.orders
    pure (selectHead b ++ cols ++ " FROM " ++ table ++ joinStr ++ whereStr ++
        groupStr ++ havingStr ++ orderStr ++ limitPart b.limit ++ offsetPart b.offset,
      whereArgs ++ havingArgs)

/-- `CompileSelect` (every Go error site is `return "", nil, err`). -/
def CompileSelect (b : Builder) : String × List GoValue × Option Err :=
  match compileSelectE b with
  | .error e => ("", [], some e)
  | .ok (s, a) => (s, a, none)

/-- `CompileInsert`, happy path and first error: sorted keys, wrapped
columns, one placeholder and one argument per key. -/
def compileInsertE (b : Builder) (data : DataMap) :
    Except Err (String × List GoValue) :=
  if b.table = "" then .error .noTable
  else if data.isEmpty then .error .noColumns
  else do
    let keys := sortedKeys data
    let table ← exceptOfPair (WrapTable b.table)
    let wrappedCols ← wrapAll keys
    pure ("INSERT INTO " ++ table ++ " (" ++ goJoin ", " wrappedCols ++
        ") VALUES (" ++ goJoin ", " (keys.map (fun _ => "?")) ++ ")",
      keys.map (mapGet data))

/-- `CompileInsert`. -/
def CompileInsert (b : Builder) (data : DataMap) :
    String × List GoValue × Option Err :=
  match compileInsertE b data with
  | .error e => ("", [], some e)
  | .ok (s, a) => (s, a, none)

/-- The per-row check of `CompileInsertBatch`: the row's size must equal
the first row's key count, and every key must be present; the row's
arguments are its values in sorted-key order. -/
def batchRowArgs (keys : List String) (row : DataMap) :
    Except Err (List GoValue) :=
  if row.length ≠ keys.length then .error .inconsistentBatch
  else lookupAll keys row
where
  lookupAll : List String → DataMap → Except Err (List GoValue)
  | [], _ => .ok []
  | k :: rest, r =>
    match r.lookup k with
    | none => .error .inconsistentBatch
    | some v => do
      let vs ← lookupAll rest r
      pure (v :: vs)

/-- The row loop of `CompileInsertBatch`. -/
def batchRows (keys : List String) : List DataMap → Except Err (List (List GoValue))
  | [] => .ok []
  | row :: rest => do
    let a ← batchRowArgs keys row
    let rest2 ← batchRows keys rest
    pure (a :: rest2)

/-- `CompileInsertBatch`, happy path and first error: the column set comes
from the first row (sorted); every row must have exactly the same key
count and contain every column key, else `ErrInconsistentBatch`; one
parenthesized placeholder tuple is emitted per row and the arguments are
appended row-major. -/
def compileInsertBatchE (b : Builder) (data : List DataMap) :
    Except Err (String × List GoValue) :=
  if b.table = "" then .error .noTable
  else
    match data with
    | [] => .error .emptyBatch
    | firstRow :: _ =>
      if firstRow.isEmpty then .error .noColumns
      else do
        let keys := sortedKeys firstRow
        let table ← exceptOfPair (WrapTable b.table)
        let wrappedCols ← wrapAll keys
        let argLists ← batchRows keys data
        pure ("INSERT INTO " ++ table ++ " (" ++ goJoin ", " wrappedCols ++
            ") VALUES " ++ goJoin ", " (data.map (fun _ =>
              "(" ++ goJoin ", " (keys.map (fun _ => "?")) ++ ")")),
          argLists.flatten)

/-- `CompileInsertBatch`. -/
def CompileInsertBatch (b : Builder) (data : List DataMap) :
    String × List GoValue × Option Err :=
  match compileInsertBatchE b data with
  | .error e => ("", [], some e)
  | .ok (s, a) => (s, a, none)

/-- The SET loop of `CompileUpdate`: `wrapped = ?` per sorted key. -/
def updateSetParts : List String → Except Err (List String)
  | [] => .ok []
  | k :: rest => do
    let w ← exceptOfPair (Wrap k)
    let ws ← updateSetParts rest
    pure ((w ++ " = ?") :: ws)

/-- `CompileUpdate`, happy path and first error. -/
def compileUpdateE (b : Builder) (data : DataMap) :
    Except Err (String × List GoValue) :=
  if b.table = "" then .error .noTable
  else if data.isEmpty then .error .noColumns
  else do
    let keys := sortedKeys data
    let table ← exceptOfPair (WrapTable b.table)
    let setParts ← updateSetParts keys
    let (whereStr, whereArgs) ← wherePart " WHERE " b.wheres
    pure ("UPDATE " ++ table ++ " SET " ++ goJoin ", " setParts ++ whereStr,
      keys.map (mapGet data) ++ whereArgs)

/-- `CompileUpdate`. -/
def CompileUpdate (b : Builder) (data : DataMap) :
    String × List GoValue × Option Err :=
  match compileUpdateE b data with
  | .error e => ("", [], some e)
  | .ok (s, a) => (s, a, none)

/-- `CompileDelete`, happy path and first error. -/
def compileDeleteE (b : Builder) : Except Err (String × List GoValue) :=
  if b.table = "" then .error .noTable
  else do
    let table ← exceptOfPair (WrapTable b.table)
    let (whereStr, whereArgs) ← wherePart " WHERE " b.wheres
    pure ("DELETE FROM " ++ table ++ whereStr, whereArgs)

/-- `CompileDelete`. -/
def CompileDelete (b : Builder) : String × List GoValue × Option Err :=
  match compileDeleteE b with
  | .error e => ("", [], some e)
  | .ok (s, a) => (s, a, none)

/-- `CompileExists`, happy path and first error. -/
def compileExistsE (b : Builder) : Except Err (String × List GoValue) :=
  if b.table = "" then .error .noTable
  else do
    let table ← exceptOfPair (WrapTable b.table)
    let (whereStr, whereArgs) ← wherePart " WHERE " b.wheres
    pure ("SELECT EXISTS(SELECT 1 FROM " ++ table ++ whereStr ++ " LIMIT 1)",
      whereArgs)

/-- `CompileExists`. -/
def CompileExists (b : Builder) : String × List GoValue × Option Err :=
  match compileExistsE b with
  | .error e => ("", [], some e)
  | .ok (s, a) => (s, a, none)

/-- The `COUNT(*)` / `COUNT(wrapped)` expression of `CompileCount`. -/
def countExprPart (column : String) : Except Err String :=
  if column = "" then .ok "COUNT(*)"
  else do
    let w ← exceptOfPair (Wrap column)
    pure ("COUNT(" ++ w ++ ")")

/-- `CompileCount`, happy path and first error: an empty column means
`COUNT(*)`. -/
def compileCountE (b : Builder) (column : String) :
    Except Err (String × List GoValue) :=
  if b.table = "" then .error .noTable
  else do
    let countExpr ← countExprPart column
    let table ← exceptOfPair (WrapTable b.table)
    let (whereStr, whereArgs) ← wherePart " WHERE " b.wheres
    pure ("SELECT " ++ countExpr ++ " FROM " ++ table ++ whereStr, whereArgs)

/-- `CompileCount`. -/
def CompileCount (b : Builder) (column : String) :
    String × List GoValue × Option Err :=
  match compileCountE b column with
  | .error e => ("", [], some e)
  | .ok (s, a) => (s, a, none)

/-- `CompileAggregate`, happy path and first error: the function name is
upper-cased verbatim (it is not validated against any whitelist). -/
def compileAggregateE (b : Builder) (fn column : String) :
    Except Err (String × List GoValue) :=
  if b.table = "" then .error .noTable
  else if column = "" then .error .noColumns
  else do
    let w ← exceptOfPair (Wrap column)
    let table ← exceptOfPair (WrapTable b.table)
    let (whereStr, whereArgs) ← wherePart " WHERE " b.wheres
    pure ("SELECT " ++ goToUpper fn ++ "(" ++ w ++ ") FROM " ++ table ++ whereStr,
      whereArgs)

/-- `CompileAggregate`. -/
def CompileAggregate (b : Builder) (fn column : String) :
    String × List GoValue × Option Err :=
  match compileAggregateE b fn column with
  | .error e => ("", [], some e)
  | .ok (s, a) => (s, a, none)

/-- `CompileTruncate` (returns `(string, error)` only; its error sites are
`return "", err`). -/
def CompileTruncate (b : Builder) : String × Option Err :=
  if b.table = "" then ("", some .noTable)
  else
    match WrapTable b.table with
    | (_, some e) => ("", some e)
    | (table, none) => ("TRUNCATE TABLE " ++ table, none)

/-- The update-parts loop of `CompileUpsert`: `wrapped = VALUES(wrapped)`. -/
def upsertParts : List String → Except Err (List String)
  | [] => .ok []
  | col :: rest => do
    let w ← exceptOfPair (Wrap col)
    let ws ← upsertParts rest
    pure ((w ++ " = VALUES(" ++ w ++ ")") :: ws)

/-- `CompileUpsert`, happy path and first error: the `CompileInsert`
output plus `ON DUPLICATE KEY UPDATE`; an empty `updateColumns` defaults
to all (sorted) data keys. -/
def compileUpsertE (b : Builder) (data : DataMap) (updateColumns : List String) :
    Except Err (String × List GoValue) := do
  let (insertSQL, args) ← compileInsertE b data
  let cols := if updateColumns.isEmpty then sortedKeys data else updateColumns
  let parts ← upsertParts cols
  pure (insertSQL ++ " ON DUPLICATE KEY UPDATE " ++ goJoin ", " parts, args)

/-- `CompileUpsert`. -/
def CompileUpsert (b : Builder) (data : DataMap) (updateColumns : List String) :
    String × List GoValue × Option Err :=
  match compileUpsertE b data updateColumns with
  | .error e => ("", [], some e)
  | .ok (s, a) => (s, a, none)

/-! ## Builder compilation entry points (`builder.go`) -/

/-- `(b *Builder) ToSelectSQL`: the accumulated error short-circuits, then
the nil-grammar check, then the grammar is invoked. -/
def ToSelectSQL (b : Builder) : String × List GoValue × Option Err :=
  match b.err with
  | some e => ("", [], some e)
  | none =>
    if b.grammarNil then ("", [], some .noExecutor)
    else CompileSelect b

/-- `(b *Builder) ToInsertSQL`. -/
def ToInsertSQL (b : Builder) (data : DataMap) : String × List GoValue × Option Err :=
  match b.err with
  | some e => ("", [], some e)
  | none =>
    if b.grammarNil then ("", [], some .noExecutor)
    else CompileInsert b data

/-- `(b *Builder) ToUpdateSQL`. -/
def ToUpdateSQL (b : Builder) (data : DataMap) : String × List GoValue × Option Err :=
  match b.err with
  | some e => ("", [], some e)
  | none =>
    if b.grammarNil then ("", [], some .noExecutor)
    else CompileUpdate b data

/-- `(b *Builder) ToDeleteSQL`. -/
def ToDeleteSQL (b : Builder) : String × List GoValue × Option Err :=
  match b.err with
  | some e => ("", [], some e)
  | none =>
    if b.grammarNil then ("", [], some .noExecutor)
    else CompileDelete b

/-! ## Auxiliary definitions used by the verification -/

/-- Number of `?` placeholder characters in a SQL string. -/
def countQ (s : String) : Nat := s.data.count '?'

mutual

/-- A clause whose raw escape hatches are placeholder-balanced: a `Raw`
clause carries exactly as many `?` as bindings, and a `Nested` clause is
balanced throughout.  (The non-raw kinds emit their own placeholders in
lockstep with their arguments, so nothing is required of them.) -/
def clauseBalanced : WhereClause → Bool
  | .mk t _ _ _ _ _ nested raw bindings =>
    match t with
    | .raw => countQ raw == bindings.length
    | .nested => clausesBalanced nested
    | _ => true

/-- All clauses of a predicate list are balanced. -/
def clausesBalanced : List WhereClause → Bool
  | [] => true
  | w :: rest => clauseBalanced w && clausesBalanced rest

end

/-! ## Heap model of `Builder.Clone` (`builder.go`)

`Clone` copies each list with `make` + `copy`.  `copy` copies the
`WhereClause` structs element-wise, and a struct's `Values []any` field is
a slice header — a reference to a backing array — so the copied struct
aliases the same backing array.  To state this aliasing the `Values`
field is modelled as an index into a store of backing arrays. -/

/-- A `WhereClause` as laid out in memory: `Values` is a slice header,
modelled as a reference into a `SliceStore`.  (The other fields are
irrelevant to the aliasing fact and are elided except for the type tag.) -/
structure HeapWhereClause where
  type : WhereType
  valuesRef : Nat
deriving DecidableEq, Repr

/-- The backing arrays of all `[]any` slices. -/
abbrev SliceStore := List (List GoValue)

/-- Dereference a slice header. -/
def readSlice (store : SliceStore) (r : Nat) : List GoValue := store.getD r []

/-- `slice[i] = v`: in-place mutation of a backing array through any
header referencing it. -/
def writeSliceElem (store : SliceStore) (r i : Nat) (v : GoValue) : SliceStore :=
  store.set r ((store.getD r []).set i v)

/-- The `clone.wheres = make(...); copy(clone.wheres, b.wheres)` step of
`Clone`: a fresh outer array whose elements are the same structs —
including their `valuesRef` slice headers, which keep pointing at the
original backing arrays. -/
def cloneWheresGo (ws : List HeapWhereClause) : List HeapWhereClause :=
  ws.map (fun w => w)

/-! ## Lemmas: placeholder counting and the validation layer -/

theorem countQ_append (a b : String) : countQ (a ++ b) = countQ a + countQ b := by
  simp [countQ, String.data_append, List.count_append]

theorem countQ_eq_zero {s : String} (h : '?' ∉ s.data) : countQ s = 0 :=
  List.count_eq_zero_of_not_mem h

theorem isIdentStart_le {c : Char} (h : isIdentStart c = true) : isIdentChar c = true := by
  simp only [isIdentStart, Bool.or_eq_true, decide_eq_true_eq] at h
  simp only [isIdentChar, Char.isAlphanum, Bool.or_eq_true, decide_eq_true_eq]
  rcases h with h | h
  · exact Or.inl (Or.inl h)
  · exact Or.inr h

theorem matchIdentPart_chars {cs : List Char} (h : matchIdentPart cs = true) :
    ∀ c ∈ cs, isIdentChar c = true := by
  cases cs with
  | nil => simp [matchIdentPart] at h
  | cons c cs =>
    simp only [matchIdentPart, Bool.and_eq_true, List.all_eq_true] at h
    intro x hx
    rcases List.mem_cons.mp hx with rfl | hx
    · exact isIdentStart_le h.1
    · exact h.2 x hx

theorem matchIdentPart_noQ {l : List Char} (h : matchIdentPart l = true) : '?' ∉ l := by
  intro hc
  exact absurd (matchIdentPart_chars h _ hc) (by decide)

theorem splitOnDotChars_ne_nil (cs : List Char) : splitOnDotChars cs ≠ [] := by
  induction cs with
  | nil => simp [splitOnDotChars]
  | cons x xs ih =>
    rw [splitOnDotChars]
    by_cases hx : x = '.'
    · simp [hx]
    · simp only [hx, if_false]
      rcases he : splitOnDotChars xs with _ | ⟨p, ps⟩ <;> simp

theorem splitOnDotChars_cons_dot (xs : List Char) :
    splitOnDotChars ('.' :: xs) = [] :: splitOnDotChars xs := by
  rw [splitOnDotChars]
  simp

theorem splitOnDotChars_cons_ne {x : Char} (hx : ¬ x = '.') (xs : List Char) :
    ∃ p ps, splitOnDotChars xs = p :: ps ∧ splitOnDotChars (x :: xs) = (x :: p) :: ps := by
  rcases he : splitOnDotChars xs with _ | ⟨p, ps⟩
  · exact absurd he (splitOnDotChars_ne_nil xs)
  · refine ⟨p, ps, rfl, ?_⟩
    rw [splitOnDotChars]
    simp only [hx, if_false, he]

theorem mem_splitOnDotChars {cs : List Char} {c : Char} (h : c ∈ cs) :
    c = '.' ∨ ∃ p ∈ splitOnDotChars cs, c ∈ p := by
  induction cs with
  | nil => cases h
  | cons x xs ih =>
    by_cases hc : c = '.'
    · exact Or.inl hc
    right
    rcases List.mem_cons.mp h with rfl | h
    · obtain ⟨p, ps, _, he2⟩ := splitOnDotChars_cons_ne hc xs
      exact ⟨c :: p, by simp [he2], by simp⟩
    · rcases ih h with hdot | ⟨p, hp, hcp⟩
      · exact absurd hdot hc
      by_cases hx : x = '.'
      · subst hx
        rw [splitOnDotChars_cons_dot]
        exact ⟨p, List.mem_cons_of_mem _ hp, hcp⟩
      · obtain ⟨q, qs, he1, he2⟩ := splitOnDotChars_cons_ne hx xs
        rw [he1] at hp
        rcases List.mem_cons.mp hp with rfl | hp
        · exact ⟨x :: p, by simp [he2], List.mem_cons_of_mem _ hcp⟩
        · exact ⟨p, by simp [he2, hp], hcp⟩

theorem mem_splitOnDotChars_sub {cs : List Char} {p : List Char}
    (hp : p ∈ splitOnDotChars cs) {c : Char} (hc : c ∈ p) : c ∈ cs ∧ ¬ c = '.' := by
  induction cs generalizing p with
  | nil =>
    rw [splitOnDotChars] at hp
    rcases List.mem_cons.mp hp with rfl | hp
    · cases hc
    · cases hp
  | cons x xs ih =>
    by_cases hx : x = '.'
    · subst hx
      rw [splitOnDotChars_cons_dot] at hp
      rcases List.mem_cons.mp hp with rfl | hp
      · cases hc
      · have := ih hp hc
        exact ⟨List.mem_cons_of_mem _ this.1, this.2⟩
    · obtain ⟨q, qs, he1, he2⟩ := splitOnDotChars_cons_ne hx xs
      rw [he2] at hp
      rcases List.mem_cons.mp hp with rfl | hp
      · rcases List.mem_cons.mp hc with rfl | hcq
        · exact ⟨List.mem_cons_self _ _, hx⟩
        · have hqmem : q ∈ splitOnDotChars xs := by
            rw [he1]; exact List.mem_cons_self _ _
          have := ih hqmem hcq
          exact ⟨List.mem_cons_of_mem _ this.1, this.2⟩
      · have hpmem : p ∈ splitOnDotChars xs := by
          rw [he1]; exact List.mem_cons_of_mem _ hp
        have := ih hpmem hc
        exact ⟨List.mem_cons_of_mem _ this.1, this.2⟩

theorem identifierRegexMatch_chars {s : String} (h : identifierRegexMatch s = true) :
    ∀ c ∈ s.data, isIdentChar c = true ∨ c = '.' := by
  intro c hc
  rcases mem_splitOnDotChars hc with hdot | ⟨p, hp, hcp⟩
  · exact Or.inr hdot
  · left
    unfold identifierRegexMatch at h
    rcases he : splitOnDotChars s.data with _ | ⟨q, qs⟩
    · rw [he] at hp; cases hp
    · rw [he] at h hp
      rcases qs with _ | ⟨q2, qs2⟩
      · rcases List.mem_cons.mp hp with rfl | hp
        · exact matchIdentPart_chars h c hcp
        · cases hp
      · rcases qs2 with _ | _
        · simp only [Bool.and_eq_true] at h
          rcases List.mem_cons.mp hp with rfl | hp
          · exact matchIdentPart_chars h.1 c hcp
          · rcases List.mem_cons.mp hp with rfl | hp
            · exact matchIdentPart_chars h.2 c hcp
            · cases hp
        · cases h

theorem validateIdentifier_regex {s : String} (h : ValidateIdentifier s = none) :
    identifierRegexMatch s = true ∧ s ≠ "" := by
  unfold ValidateIdentifier at h
  split at h
  · cases h
  · split at h
    · cases h
    · split at h
      · cases h
      · rename_i h1 h2 h3
        exact ⟨by simpa using h3, h1⟩

theorem validateIdentifier_chars {s : String} (h : ValidateIdentifier s = none) :
    ∀ c ∈ s.data, isIdentChar c = true ∨ c = '.' :=
  identifierRegexMatch_chars (validateIdentifier_regex h).1

theorem validateIdentifier_noQ {s : String} (h : ValidateIdentifier s = none) :
    countQ s = 0 := by
  rw [countQ, List.count_eq_zero]
  intro hc
  rcases validateIdentifier_chars h _ hc with hi | hd
  · exact absurd hi (by decide)
  · exact absurd hd (by decide)

theorem mem_goJoin_data {sep : String} {l : List String} {c : Char}
    (h : c ∈ (goJoin sep l).data) : c ∈ sep.data ∨ ∃ x ∈ l, c ∈ x.data := by
  induction l with
  | nil => cases h
  | cons x xs ih =>
    cases xs with
    | nil =>
      exact Or.inr ⟨x, by simp, h⟩
    | cons y ys =>
      have hrw : goJoin sep (x :: y :: ys) = x ++ sep ++ goJoin sep (y :: ys) := rfl
      rw [hrw] at h
      simp only [String.data_append, List.mem_append] at h
      rcases h with (h | h) | h
      · exact Or.inr ⟨x, by simp, h⟩
      · exact Or.inl h
      · rcases ih h with h | ⟨z, hz, hcz⟩
        · exact Or.inl h
        · exact Or.inr ⟨z, List.mem_cons_of_mem _ hz, hcz⟩

theorem countQ_goJoin {sep : String} {l : List String}
    (hsep : countQ sep = 0) (h : ∀ x ∈ l, countQ x = 0) : countQ (goJoin sep l) = 0 := by
  rw [countQ, List.count_eq_zero]
  intro hc
  rcases mem_goJoin_data hc with hc | ⟨x, hx, hcx⟩
  · rw [countQ, List.count_eq_zero] at hsep
    exact hsep hc
  · have := h x hx
    rw [countQ, List.count_eq_zero] at this
    exact this hcx

theorem wrap_noQ {s w : String} (h : Wrap s = (w, none)) : countQ w = 0 := by
  unfold Wrap at h
  split at h
  · cases h
    decide
  · split at h
    · cases h
    · rename_i hv
      split at h
      · cases h
        rw [countQ, List.count_eq_zero]
        intro hc
        rcases mem_goJoin_data hc with hc | ⟨x, hx, hcx⟩
        · exact absurd hc (by decide)
        · simp only [List.mem_map] at hx
          obtain ⟨p, hp, rfl⟩ := hx
          have hdata : ("`" ++ (⟨p⟩ : String) ++ "`").data = '`' :: (p ++ ['`']) := by
            simp [String.data_append]
          rw [hdata] at hcx
          rcases List.mem_cons.mp hcx with heq | hcx
          · exact absurd heq (by decide)
          rcases List.mem_append.mp hcx with hcx | hcx
          · have hsub := mem_splitOnDotChars_sub hp hcx
            rcases validateIdentifier_chars hv _ hsub.1 with hi | hd
            · exact absurd hi (by decide)
            · exact hsub.2 hd
          · simp at hcx
      · cases h
        rw [countQ, List.count_eq_zero]
        intro hc
        have hdata : ("`" ++ s ++ "`").data = '`' :: (s.data ++ ['`']) := by
          simp [String.data_append]
        rw [hdata] at hc
        rcases List.mem_cons.mp hc with heq | hc
        · exact absurd heq (by decide)
        rcases List.mem_append.mp hc with hc | hc
        · rcases validateIdentifier_chars hv _ hc with hi | hd
          · exact absurd hi (by decide)
          · exact absurd hd (by decide)
        · simp at hc

theorem toNat_ofNat_valid {n : Nat} (h : n.isValidChar) : (Char.ofNat n).toNat = n := by
  rw [Char.ofNat, dif_pos h]
  simp [Char.ofNatAux, Char.toNat, UInt32.toNat]

theorem charToUpper_eq_q {c : Char} (h : Char.toUpper c = '?') : c = '?' := by
  by_cases hn : c.toNat ≥ 97 ∧ c.toNat ≤ 122
  · exfalso
    have hup : Char.toUpper c = Char.ofNat (c.toNat - 32) := by
      unfold Char.toUpper
      simp [hn]
    rw [hup] at h
    have hv : (c.toNat - 32).isValidChar := Or.inl (by omega)
    have := congrArg Char.toNat h
    rw [toNat_ofNat_valid hv] at this
    have hq : ('?').toNat = 63 := rfl
    omega
  · have hup : Char.toUpper c = c := by
      unfold Char.toUpper
      simp [hn]
    rw [hup] at h
    exact h

theorem countQ_goToUpper {s : String} (h : countQ s = 0) : countQ (goToUpper s) = 0 := by
  rw [countQ, List.count_eq_zero]
  intro hc
  have hd : (goToUpper s).data = s.data.map Char.toUpper := rfl
  rw [hd] at hc
  obtain ⟨c, hcs, hcq⟩ := List.mem_map.mp hc
  rw [charToUpper_eq_q hcq] at hcs
  rw [countQ, List.count_eq_zero] at h
  exact h hcs

theorem allowedOperators_noQ {x : String} (h : x ∈ allowedOperators) : '?' ∉ x.data := by
  fin_cases h <;> decide

theorem validateOperator_mem {op : String} (h : ValidateOperator op = none) :
    goToUpper (goTrimSpace op) ∈ allowedOperators := by
  unfold ValidateOperator at h
  dsimp only at h
  split at h
  · rename_i hc
    exact List.elem_iff.mp hc
  · cases h

theorem goTrimSpace_decomp (s : String) :
    ∃ pre suf, s.data = pre ++ (goTrimSpace s).data ++ suf ∧
      (∀ c ∈ pre, isGoTrimSpace c = true) ∧ (∀ c ∈ suf, isGoTrimSpace c = true) := by
  refine ⟨s.data.takeWhile isGoTrimSpace,
    ((s.data.dropWhile isGoTrimSpace).reverse.takeWhile isGoTrimSpace).reverse, ?_, ?_, ?_⟩
  · have hd : (goTrimSpace s).data =
        ((s.data.dropWhile isGoTrimSpace).reverse.dropWhile isGoTrimSpace).reverse := rfl
    have hm : s.data.dropWhile isGoTrimSpace =
        ((s.data.dropWhile isGoTrimSpace).reverse.dropWhile isGoTrimSpace).reverse ++
        ((s.data.dropWhile isGoTrimSpace).reverse.takeWhile isGoTrimSpace).reverse := by
      have h2 := List.takeWhile_append_dropWhile isGoTrimSpace
        (s.data.dropWhile isGoTrimSpace).reverse
      have h3 := congrArg List.reverse h2
      rw [List.reverse_append] at h3
      simpa using h3.symm
    rw [hd, List.append_assoc]
    conv_lhs => rw [← List.takeWhile_append_dropWhile isGoTrimSpace s.data]
    congr 1
  · intro c hc
    exact List.mem_takeWhile_imp hc
  · intro c hc
    rw [List.mem_reverse] at hc
    exact List.mem_takeWhile_imp hc

theorem validateOperator_noQ {op : String} (h : ValidateOperator op = none) :
    countQ op = 0 := by
  have hnq := allowedOperators_noQ (validateOperator_mem h)
  rw [countQ, List.count_eq_zero]
  intro hc
  obtain ⟨pre, suf, hdec, hpre, hsuf⟩ := goTrimSpace_decomp op
  rw [hdec] at hc
  rcases List.mem_append.mp hc with hc | hc
  · rcases List.mem_append.mp hc with hc | hc
    · exact absurd (hpre _ hc) (by decide)
    · apply hnq
      have hd : (goToUpper (goTrimSpace op)).data =
          (goTrimSpace op).data.map Char.toUpper := rfl
      rw [hd]
      have hq : Char.toUpper '?' = '?' := rfl
      exact hq ▸ List.mem_map_of_mem Char.toUpper hc
  · exact absurd (hsuf _ hc) (by decide)

theorem validateOperator_upper_noQ {op : String} (h : ValidateOperator op = none) :
    countQ (goToUpper op) = 0 :=
  countQ_goToUpper (validateOperator_noQ h)

theorem aliasRegexMatch_parts {s n a : String} (h : aliasRegexMatch s = some (n, a)) :
    matchIdentPart n.data = true ∧ matchIdentPart a.data = true := by
  unfold aliasRegexMatch at h
  dsimp only at h
  split at h
  · cases h
  split at h
  · cases h
  split at h
  · split at h
    · split at h
      · cases h
        constructor <;> simp_all
      · cases h
    · split at h
      · cases h
        constructor <;> simp_all
      · cases h
  · split at h
    · cases h
      constructor <;> simp_all
    · cases h

theorem validateTWA_noQ {s n a : String} (h : ValidateTableWithAlias s = (n, a, none)) :
    countQ n = 0 ∧ countQ a = 0 := by
  unfold ValidateTableWithAlias at h
  split at h
  · cases h
  · split at h
    · rename_i pr heq
      split at h
      · cases h
      · split at h
        · cases h
        · cases h
          obtain ⟨h1, h2⟩ := aliasRegexMatch_parts heq
          exact ⟨countQ_eq_zero (matchIdentPart_noQ h1), countQ_eq_zero (matchIdentPart_noQ h2)⟩
    · split at h
      · cases h
      · rename_i hv
        cases h
        exact ⟨validateIdentifier_noQ hv, by decide⟩

theorem wrapTable_noQ {s w : String} (h : WrapTable s = (w, none)) : countQ w = 0 := by
  unfold WrapTable at h
  split at h
  · cases h
  · rename_i n a heq
    have hna := validateTWA_noQ heq
    split at h
    · cases h
      have h1 := hna.1
      have h2 := hna.2
      simp only [countQ] at h1 h2 ⊢
      simp [String.data_append, List.count_append, h1, h2]
    · cases h
      have h1 := hna.1
      simp only [countQ] at h1 ⊢
      simp [String.data_append, List.count_append, h1]

/-! ## Lemmas: placeholder balance of compiled predicates -/


theorem exceptBind_ok {α β : Type} {x : Except Err α} {f : α → Except Err β} {b : β}
    (h : (x >>= f) = .ok b) : ∃ a, x = .ok a ∧ f a = .ok b := by
  cases x with
  | error e => simp [Bind.bind, Except.bind] at h
  | ok a => exact ⟨a, rfl, by simpa [Bind.bind, Except.bind] using h⟩

theorem countQ_boolSQL (b : WhereBoolean) : countQ b.toSQL = 0 := by
  cases b <;> decide

theorem countQ_placeholders {α : Type} (l : List α) :
    countQ (goJoin ", " (l.map fun _ => "?")) = l.length := by
  induction l with
  | nil => rfl
  | cons x xs ih =>
    cases xs with
    | nil => rfl
    | cons y ys =>
      have hrw : goJoin ", " ((x :: y :: ys).map fun _ => "?") =
          "?" ++ ", " ++ goJoin ", " ((y :: ys).map fun _ => "?") := rfl
      rw [hrw, countQ_append, countQ_append, ih]
      have e1 : countQ "?" = 1 := by decide
      have e2 : countQ ", " = 0 := by decide
      simp [e1, e2]
      omega

theorem compileWhereBasic_countQ {col op : String} {v : GoValue} {s : String}
    {a : List GoValue} (h : compileWhereBasic col op v = .ok (s, a)) :
    countQ s = a.length := by
  unfold compileWhereBasic at h
  split at h
  · cases h
  · rename_i c hw
    split at h
    · cases h
    · rename_i hop
      cases h
      have h1 := wrap_noQ hw
      have h2 := validateOperator_upper_noQ hop
      have e1 : countQ " " = 0 := by decide
      have e2 : countQ " ?" = 1 := by decide
      simp only [countQ_append, h1, h2, e1, e2, List.length_cons, List.length_nil]

theorem compileWhereIn_countQ {col : String} {vals : List GoValue} {isNot : Bool}
    {s : String} {a : List GoValue} (h : compileWhereIn col vals isNot = .ok (s, a)) :
    countQ s = a.length := by
  unfold compileWhereIn at h
  split at h
  · cases h
  · split at h
    · cases h
    · rename_i hne c hw
      cases h
      have h1 := wrap_noQ hw
      have hph := countQ_placeholders vals
      have e1 : countQ " " = 0 := by decide
      have e2 : countQ "IN" = 0 := by decide
      have e3 : countQ "NOT IN" = 0 := by decide
      have e4 : countQ " (" = 0 := by decide
      have e5 : countQ ")" = 0 := by decide
      cases isNot <;>
        simp only [countQ_append, h1, hph, e1, e2, e3, e4, e5, if_true, if_false,
          Bool.false_eq_true, ite_false, ite_true] <;>
        omega

theorem compileWhereBetween_countQ {col : String} {vals : List GoValue} {isNot : Bool}
    {s : String} {a : List GoValue} (h : compileWhereBetween col vals isNot = .ok (s, a)) :
    countQ s = a.length := by
  unfold compileWhereBetween at h
  split at h
  · cases h
  · rename_i hlen
    split at h
    · cases h
    · rename_i c hw
      cases h
      have h1 := wrap_noQ hw
      simp only [ne_eq, Decidable.not_not] at hlen
      have e1 : countQ " " = 0 := by decide
      have e2 : countQ "BETWEEN" = 0 := by decide
      have e3 : countQ "NOT BETWEEN" = 0 := by decide
      have e4 : countQ " ? AND ?" = 2 := by decide
      cases isNot <;>
        simp only [countQ_append, h1, e1, e2, e3, e4, if_true, if_false,
          Bool.false_eq_true, ite_false, ite_true] <;>
        omega

theorem compileWhereNull_countQ {col : String} {isNot : Bool}
    {s : String} {a : List GoValue} (h : compileWhereNull col isNot = .ok (s, a)) :
    countQ s = a.length := by
  unfold compileWhereNull at h
  split at h
  · cases h
  · rename_i c hw
    cases h
    have h1 := wrap_noQ hw
    have e1 : countQ "IS NULL" = 0 := by decide
    have e2 : countQ "IS NOT NULL" = 0 := by decide
    have e3 : countQ " " = 0 := by decide
    cases isNot <;>
      simp only [countQ_append, h1, e1, e2, e3, if_true, if_false,
        Bool.false_eq_true, ite_false, ite_true, List.length_nil]

theorem compileWhereDate_countQ {col : String} {v : GoValue} {fn : String}
    (hfn : countQ fn = 0) {s : String} {a : List GoValue}
    (h : compileWhereDate col v fn = .ok (s, a)) : countQ s = a.length := by
  unfold compileWhereDate at h
  split at h
  · cases h
  · rename_i c hw
    cases h
    have h1 := wrap_noQ hw
    have e1 : countQ "(" = 0 := by decide
    have e2 : countQ ") = ?" = 1 := by decide
    simp only [countQ_append, h1, hfn, e1, e2, List.length_cons, List.length_nil]


mutual

theorem compileWhere_countQ (w : WhereClause) {s : String} {a : List GoValue}
    (h : compileWhere w = .ok (s, a)) (hb : clauseBalanced w = true) :
    countQ s = a.length := by
  cases w with
  | mk t bo col op v vals nested raw bindings =>
    rw [compileWhere.eq_def] at h
    cases t with
    | basic => exact compileWhereBasic_countQ h
    | inOp => exact compileWhereIn_countQ h
    | notInOp => exact compileWhereIn_countQ h
    | between => exact compileWhereBetween_countQ h
    | notBetween => exact compileWhereBetween_countQ h
    | null => exact compileWhereNull_countQ h
    | notNull => exact compileWhereNull_countQ h
    | raw =>
      cases h
      rw [clauseBalanced] at hb
      simpa using hb
    | nested =>
      rw [clauseBalanced] at hb
      replace h : compileWhereNested nested = .ok (s, a) := h
      rw [compileWhereNested.eq_def] at h
      split at h
      · cases h
        rfl
      · obtain ⟨⟨s1, a1⟩, h1, h2⟩ := exceptBind_ok h
        simp only [pure, Except.pure, Except.ok.injEq] at h2
        cases h2
        have e1 := compileWheres_countQ nested h1 hb
        have c1 : countQ "(" = 0 := by decide
        have c2 : countQ ")" = 0 := by decide
        simp [countQ_append, e1, c1, c2]
    | date => exact compileWhereDate_countQ (by decide) h
    | year => exact compileWhereDate_countQ (by decide) h
    | month => exact compileWhereDate_countQ (by decide) h
    | day => exact compileWhereDate_countQ (by decide) h

theorem compileWheres_countQ (ws : List WhereClause) {s : String} {a : List GoValue}
    (h : compileWheres ws = .ok (s, a)) (hb : clausesBalanced ws = true) :
    countQ s = a.length := by
  cases ws with
  | nil =>
    rw [compileWheres] at h
    cases h
    rfl
  | cons w rest =>
    rw [compileWheres] at h
    obtain ⟨⟨s1, a1⟩, h1, h2⟩ := exceptBind_ok h
    obtain ⟨⟨s2, a2⟩, h3, h4⟩ := exceptBind_ok h2
    simp only [pure, Except.pure, Except.ok.injEq] at h4
    rw [clausesBalanced, Bool.and_eq_true] at hb
    have e1 := compileWhere_countQ w h1 hb.1
    have e2 := compileWheresRest_countQ rest h3 hb.2
    cases h4
    simp [countQ_append, e1, e2]

theorem compileWheresRest_countQ (ws : List WhereClause) {s : String} {a : List GoValue}
    (h : compileWheresRest ws = .ok (s, a)) (hb : clausesBalanced ws = true) :
    countQ s = a.length := by
  cases ws with
  | nil =>
    rw [compileWheresRest] at h
    cases h
    rfl
  | cons w rest =>
    rw [compileWheresRest] at h
    obtain ⟨⟨s1, a1⟩, h1, h2⟩ := exceptBind_ok h
    obtain ⟨⟨s2, a2⟩, h3, h4⟩ := exceptBind_ok h2
    simp only [pure, Except.pure, Except.ok.injEq] at h4
    rw [clausesBalanced, Bool.and_eq_true] at hb
    have e1 := compileWhere_countQ w h1 hb.1
    have e2 := compileWheresRest_countQ rest h3 hb.2
    cases h4
    have c0 : countQ " " = 0 := by decide
    simp [countQ_append, e1, e2, countQ_boolSQL, c0]

end


/-! ## Lemmas: the compile-method loops -/


theorem exceptOfPair_ok {p : String × Option Err} {s : String}
    (h : exceptOfPair p = .ok s) : p = (s, none) := by
  rcases p with ⟨ps, pe⟩
  cases pe with
  | some e => simp [exceptOfPair] at h
  | none =>
    simp only [exceptOfPair, Except.ok.injEq] at h
    rw [h]

theorem wrap_noQ_pair {c w : String} (h : exceptOfPair (Wrap c) = .ok w) : countQ w = 0 := by
  have := exceptOfPair_ok h
  exact wrap_noQ this

theorem wrapAll_noQ {ks : List String} {l : List String} (h : wrapAll ks = .ok l) :
    ∀ x ∈ l, countQ x = 0 := by
  induction ks generalizing l with
  | nil =>
    rw [wrapAll] at h
    cases h
    simp
  | cons k rest ih =>
    rw [wrapAll] at h
    obtain ⟨w, h1, h2⟩ := exceptBind_ok h
    obtain ⟨ws, h3, h4⟩ := exceptBind_ok h2
    simp only [pure, Except.pure, Except.ok.injEq] at h4
    subst h4
    intro x hx
    rcases List.mem_cons.mp hx with rfl | hx
    · exact wrap_noQ_pair h1
    · exact ih h3 x hx

theorem wrapSelectColumns_noQ {cols l : List String} (h : wrapSelectColumns cols = .ok l)
    (hc : ∀ c ∈ cols, countQ c = 0) : ∀ x ∈ l, countQ x = 0 := by
  induction cols generalizing l with
  | nil =>
    rw [wrapSelectColumns] at h
    cases h
    simp
  | cons c rest ih =>
    rw [wrapSelectColumns] at h
    split at h <;>
    · obtain ⟨w, h1, h2⟩ := exceptBind_ok h
      obtain ⟨ws, h3, h4⟩ := exceptBind_ok h2
      simp only [pure, Except.pure, Except.ok.injEq] at h4
      subst h4
      intro x hx
      rcases List.mem_cons.mp hx with rfl | hx
      · first
        | · cases h1
            exact hc _ (List.mem_cons_self _ _)
        | exact wrap_noQ_pair h1
      · exact ih h3 (fun y hy => hc y (List.mem_cons_of_mem _ hy)) x hx

theorem compileOrderParts_noQ {os : List OrderClause} {l : List String}
    (h : compileOrderParts os = .ok l)
    (ho : ∀ o ∈ os, countQ o.raw = 0 ∧ countQ o.direction = 0) :
    ∀ x ∈ l, countQ x = 0 := by
  induction os generalizing l with
  | nil =>
    rw [compileOrderParts] at h
    cases h
    simp
  | cons o rest ih =>
    rw [compileOrderParts] at h
    split at h
    · obtain ⟨w, h1, h2⟩ := exceptBind_ok h
      obtain ⟨ws, h3, h4⟩ := exceptBind_ok h2
      simp only [pure, Except.pure, Except.ok.injEq] at h4
      subst h4
      intro x hx
      rcases List.mem_cons.mp hx with rfl | hx
      · cases h1
        exact (ho _ (List.mem_cons_self _ _)).1
      · exact ih h3 (fun y hy => ho y (List.mem_cons_of_mem _ hy)) x hx
    · obtain ⟨w, h1, h2⟩ := exceptBind_ok h
      simp only [pure_bind] at h2
      obtain ⟨ws, h3, h4⟩ := exceptBind_ok h2
      simp only [pure, Except.pure, Except.ok.injEq] at h4
      subst h4
      intro x hx
      rcases List.mem_cons.mp hx with rfl | hx
      · have c0 : countQ " " = 0 := by decide
        simp [countQ_append, wrap_noQ_pair h1, c0, (ho _ (List.mem_cons_self _ _)).2]
      · exact ih h3 (fun y hy => ho y (List.mem_cons_of_mem _ hy)) x hx

theorem compileJoin_noQ {j : JoinClause} {s : String} (h : compileJoin j = .ok s)
    (ht : countQ j.type = 0) : countQ s = 0 := by
  unfold compileJoin at h
  split at h
  · cases h
  · rename_i t hw
    have htab := wrapTable_noQ hw
    split at h
    · cases h
      have c0 : countQ "CROSS JOIN " = 0 := by decide
      simp [countQ_append, htab, c0]
    · split at h
      · cases h
      · rename_i f hf
        split at h
        · cases h
        · rename_i sc hs
          split at h
          · cases h
          · rename_i hop
            cases h
            have c1 : countQ " JOIN " = 0 := by decide
            have c2 : countQ " ON " = 0 := by decide
            have c3 : countQ " " = 0 := by decide
            simp [countQ_append, htab, ht, c1, c2, c3,
              wrap_noQ hf, wrap_noQ hs, validateOperator_noQ hop]

theorem compileJoins_noQ {js : List JoinClause} {s : String} (h : compileJoins js = .ok s)
    (ht : ∀ j ∈ js, countQ j.type = 0) : countQ s = 0 := by
  induction js generalizing s with
  | nil =>
    rw [compileJoins] at h
    cases h
    rfl
  | cons j rest ih =>
    rw [compileJoins] at h
    obtain ⟨w, h1, h2⟩ := exceptBind_ok h
    obtain ⟨ws, h3, h4⟩ := exceptBind_ok h2
    simp only [pure, Except.pure, Except.ok.injEq] at h4
    subst h4
    have c0 : countQ " " = 0 := by decide
    simp [countQ_append, c0, compileJoin_noQ h1 (ht _ (List.mem_cons_self _ _)),
      ih h3 (fun y hy => ht y (List.mem_cons_of_mem _ hy))]

theorem wherePart_countQ {p : String} {ws : List WhereClause} {s : String}
    {a : List GoValue} (h : wherePart p ws = .ok (s, a)) (hp : countQ p = 0)
    (hb : clausesBalanced ws = true) : countQ s = a.length := by
  unfold wherePart at h
  split at h
  · cases h
    rfl
  · obtain ⟨⟨s1, a1⟩, h1, h2⟩ := exceptBind_ok h
    simp only [pure, Except.pure, Except.ok.injEq] at h2
    cases h2
    simp [countQ_append, hp, compileWheres_countQ _ h1 hb]

theorem digitChar_ne_q (d : Nat) : digitChar d ≠ '?' := by
  unfold digitChar
  repeat' split
  all_goals decide

theorem natDecimal_noQ (n : Nat) : '?' ∉ natDecimal n := by
  induction n using Nat.strong_induction_on with
  | _ n ih =>
    rw [natDecimal]
    split
    · intro hc
      rcases List.mem_cons.mp hc with heq | hc
      · exact digitChar_ne_q n heq.symm
      · cases hc
    · rename_i hn
      intro hc
      rcases List.mem_append.mp hc with hc | hc
      · exact ih (n / 10) (Nat.div_lt_self (by omega) (by omega)) hc
      · rcases List.mem_cons.mp hc with heq | hc
        · exact digitChar_ne_q (n % 10) heq.symm
        · cases hc

theorem intToDecimal_noQ (n : Int) : countQ (intToDecimal n) = 0 := by
  unfold intToDecimal
  split
  · rw [countQ, List.count_eq_zero]
    intro hc
    rcases List.mem_cons.mp hc with heq | hc
    · exact absurd heq (by decide)
    · exact natDecimal_noQ _ hc
  · rw [countQ, List.count_eq_zero]
    intro hc
    exact natDecimal_noQ _ hc


/-! ## Lemmas: placeholder counts of each compile method -/


theorem selectColumnsPart_noQ {cols : List String} {s : String}
    (h : selectColumnsPart cols = .ok s) (hc : ∀ c ∈ cols, countQ c = 0) :
    countQ s = 0 := by
  unfold selectColumnsPart at h
  split at h
  · cases h
    decide
  · obtain ⟨ws, hx, hy⟩ := exceptBind_ok h
    simp only [pure, Except.pure, Except.ok.injEq] at hy
    subst hy
    have csep : countQ ", " = 0 := by decide
    exact countQ_goJoin csep (wrapSelectColumns_noQ hx hc)

theorem groupByPart_noQ {gs : List String} {s : String} (h : groupByPart gs = .ok s) :
    countQ s = 0 := by
  unfold groupByPart at h
  split at h
  · cases h
    rfl
  · obtain ⟨ws, hx, hy⟩ := exceptBind_ok h
    simp only [pure, Except.pure, Except.ok.injEq] at hy
    subst hy
    have c0 : countQ " GROUP BY " = 0 := by decide
    have csep : countQ ", " = 0 := by decide
    simp [countQ_append, c0, countQ_goJoin csep (wrapAll_noQ hx)]

theorem orderByPart_noQ {os : List OrderClause} {s : String} (h : orderByPart os = .ok s)
    (ho : ∀ o ∈ os, countQ o.raw = 0 ∧ countQ o.direction = 0) : countQ s = 0 := by
  unfold orderByPart at h
  split at h
  · cases h
    rfl
  · obtain ⟨ps, hx, hy⟩ := exceptBind_ok h
    simp only [pure, Except.pure, Except.ok.injEq] at hy
    subst hy
    have c0 : countQ " ORDER BY " = 0 := by decide
    have csep : countQ ", " = 0 := by decide
    simp [countQ_append, c0, countQ_goJoin csep (compileOrderParts_noQ hx ho)]

theorem selectHead_noQ (b : Builder) : countQ (selectHead b) = 0 := by
  unfold selectHead
  cases b.distinct <;> decide

theorem limitPart_noQ (o : Option Int) : countQ (limitPart o) = 0 := by
  rcases o with _ | n
  · rfl
  · have c0 : countQ " LIMIT " = 0 := by decide
    simp [limitPart, countQ_append, c0, intToDecimal_noQ]

theorem offsetPart_noQ (o : Option Int) : countQ (offsetPart o) = 0 := by
  rcases o with _ | n
  · rfl
  · have c0 : countQ " OFFSET " = 0 := by decide
    simp [offsetPart, countQ_append, c0, intToDecimal_noQ]

theorem compileSelectE_countQ {b : Builder} {s : String} {a : List GoValue}
    (h : compileSelectE b = .ok (s, a))
    (hcols : ∀ c ∈ b.columns, countQ c = 0)
    (hords : ∀ o ∈ b.orders, countQ o.raw = 0 ∧ countQ o.direction = 0)
    (hjoins : ∀ j ∈ b.joins, countQ j.type = 0)
    (hw : clausesBalanced b.wheres = true)
    (hh : clausesBalanced b.having = true) :
    countQ s = a.length := by
  unfold compileSelectE at h
  split at h
  · cases h
  obtain ⟨cols, h1, h⟩ := exceptBind_ok h
  obtain ⟨table, h2, h⟩ := exceptBind_ok h
  obtain ⟨joinStr, h3, h⟩ := exceptBind_ok h
  obtain ⟨⟨whereStr, whereArgs⟩, h4, h⟩ := exceptBind_ok h
  obtain ⟨groupStr, h5, h⟩ := exceptBind_ok h
  obtain ⟨⟨havingStr, havingArgs⟩, h6, h⟩ := exceptBind_ok h
  obtain ⟨orderStr, h7, h⟩ := exceptBind_ok h
  simp only [pure, Except.pure, Except.ok.injEq] at h
  cases h
  have cfrom : countQ " FROM " = 0 := by decide
  simp only [countQ_append, selectHead_noQ, selectColumnsPart_noQ h1 hcols,
    wrapTable_noQ (exceptOfPair_ok h2), compileJoins_noQ h3 hjoins,
    wherePart_countQ h4 (by decide) hw, groupByPart_noQ h5,
    wherePart_countQ h6 (by decide) hh, orderByPart_noQ h7 hords,
    limitPart_noQ, offsetPart_noQ, cfrom, List.length_append]
  omega



theorem countQ_goJoin_sum {sep : String} (hsep : countQ sep = 0) (l : List String) :
    countQ (goJoin sep l) = (l.map countQ).sum := by
  induction l with
  | nil => rfl
  | cons x xs ih =>
    cases xs with
    | nil => simp [goJoin]
    | cons y ys =>
      have hrw : goJoin sep (x :: y :: ys) = x ++ sep ++ goJoin sep (y :: ys) := rfl
      rw [hrw, countQ_append, countQ_append, ih, hsep]
      simp

theorem sum_map_constNat {α : Type} (l : List α) (k : Nat) :
    (l.map (fun _ => k)).sum = l.length * k := by
  induction l with
  | nil => simp
  | cons x xs ih =>
    simp only [List.map_cons, List.sum_cons, List.length_cons, ih]
    ring

theorem sum_const_lengths {k : Nat} {ls : List (List GoValue)}
    (h : ∀ l ∈ ls, l.length = k) : (ls.map List.length).sum = ls.length * k := by
  induction ls with
  | nil => simp
  | cons x xs ih =>
    simp only [List.map_cons, List.sum_cons, List.length_cons]
    rw [h x (List.mem_cons_self _ _), ih (fun y hy => h y (List.mem_cons_of_mem _ hy))]
    ring

theorem compileInsertE_countQ {b : Builder} {data : DataMap} {s : String}
    {a : List GoValue} (h : compileInsertE b data = .ok (s, a)) :
    countQ s = a.length := by
  unfold compileInsertE at h
  split at h
  · cases h
  split at h
  · cases h
  obtain ⟨table, h1, h⟩ := exceptBind_ok h
  obtain ⟨cols, h2, h⟩ := exceptBind_ok h
  simp only [pure, Except.pure, Except.ok.injEq] at h
  cases h
  have csep : countQ ", " = 0 := by decide
  have c1 : countQ "INSERT INTO " = 0 := by decide
  have c2 : countQ " (" = 0 := by decide
  have c3 : countQ ") VALUES (" = 0 := by decide
  have c4 : countQ ")" = 0 := by decide
  simp only [countQ_append, c1, c2, c3, c4, wrapTable_noQ (exceptOfPair_ok h1),
    countQ_goJoin csep (wrapAll_noQ h2), countQ_placeholders, List.length_map]
  omega

theorem lookupAll_len {ks : List String} {r : DataMap} {vs : List GoValue}
    (h : batchRowArgs.lookupAll ks r = .ok vs) : vs.length = ks.length := by
  induction ks generalizing vs with
  | nil =>
    rw [batchRowArgs.lookupAll] at h
    cases h
    rfl
  | cons k rest ih =>
    rw [batchRowArgs.lookupAll] at h
    split at h
    · cases h
    · obtain ⟨ws, h1, h2⟩ := exceptBind_ok h
      simp only [pure, Except.pure, Except.ok.injEq] at h2
      subst h2
      simp [ih h1]

theorem batchRowArgs_len {keys : List String} {row : DataMap} {a : List GoValue}
    (h : batchRowArgs keys row = .ok a) : a.length = keys.length := by
  unfold batchRowArgs at h
  split at h
  · cases h
  · exact lookupAll_len h

theorem batchRows_len {keys : List String} {rows : List DataMap}
    {ls : List (List GoValue)} (h : batchRows keys rows = .ok ls) :
    ls.length = rows.length ∧ ∀ l ∈ ls, l.length = keys.length := by
  induction rows generalizing ls with
  | nil =>
    rw [batchRows] at h
    cases h
    simp
  | cons r rest ih =>
    rw [batchRows] at h
    obtain ⟨x, h1, h⟩ := exceptBind_ok h
    obtain ⟨xs, h2, h⟩ := exceptBind_ok h
    simp only [pure, Except.pure, Except.ok.injEq] at h
    subst h
    obtain ⟨hl, he⟩ := ih h2
    refine ⟨by simp [hl], ?_⟩
    intro l hlm
    rcases List.mem_cons.mp hlm with rfl | hlm
    · exact batchRowArgs_len h1
    · exact he l hlm

theorem compileInsertBatchE_countQ {b : Builder} {data : List DataMap} {s : String}
    {a : List GoValue} (h : compileInsertBatchE b data = .ok (s, a)) :
    countQ s = a.length := by
  unfold compileInsertBatchE at h
  split at h
  · cases h
  split at h
  · cases h
  rename_i firstRow rest
  split at h
  · cases h
  obtain ⟨table, h1, h⟩ := exceptBind_ok h
  obtain ⟨cols, h2, h⟩ := exceptBind_ok h
  obtain ⟨argLists, h3, h⟩ := exceptBind_ok h
  simp only [pure, Except.pure, Except.ok.injEq] at h
  cases h
  have csep : countQ ", " = 0 := by decide
  have c1 : countQ "INSERT INTO " = 0 := by decide
  have c2 : countQ " (" = 0 := by decide
  have c3 : countQ ") VALUES " = 0 := by decide
  have c4 : countQ "(" = 0 := by decide
  have c5 : countQ ")" = 0 := by decide
  obtain ⟨hlen, helem⟩ := batchRows_len h3
  -- count of the VALUES tuples part
  have htuple : countQ ("(" ++ goJoin ", "
      ((sortedKeys firstRow).map (fun _ => "?")) ++ ")") =
      (sortedKeys firstRow).length := by
    simp only [countQ_append, c4, c5, countQ_placeholders]
    omega
  have hjoin : countQ (goJoin ", " ((firstRow :: rest).map (fun _ =>
      "(" ++ goJoin ", " ((sortedKeys firstRow).map (fun _ => "?")) ++ ")"))) =
      (firstRow :: rest).length * (sortedKeys firstRow).length := by
    rw [countQ_goJoin_sum csep]
    rw [List.map_map]
    have : ((firstRow :: rest).map (countQ ∘ fun _ =>
        "(" ++ goJoin ", " ((sortedKeys firstRow).map (fun _ => "?")) ++ ")")) =
        ((firstRow :: rest).map (fun _ => (sortedKeys firstRow).length)) := by
      apply List.map_congr_left
      intro x hx
      simpa using htuple
    rw [this, sum_map_constNat]
  have hflat : argLists.flatten.length = (firstRow :: rest).length *
      (sortedKeys firstRow).length := by
    rw [List.length_flatten]
    rw [sum_const_lengths helem, hlen]
  simp only [countQ_append, c1, c2, c3, wrapTable_noQ (exceptOfPair_ok h1),
    countQ_goJoin csep (wrapAll_noQ h2), hjoin, hflat]
  omega

theorem updateSetParts_counts {ks : List String} {l : List String}
    (h : updateSetParts ks = .ok l) :
    l.length = ks.length ∧ ∀ x ∈ l, countQ x = 1 := by
  induction ks generalizing l with
  | nil =>
    rw [updateSetParts] at h
    cases h
    simp
  | cons k rest ih =>
    rw [updateSetParts] at h
    obtain ⟨w, h1, h⟩ := exceptBind_ok h
    obtain ⟨ws, h2, h⟩ := exceptBind_ok h
    simp only [pure, Except.pure, Except.ok.injEq] at h
    subst h
    obtain ⟨hl, he⟩ := ih h2
    refine ⟨by simp [hl], ?_⟩
    intro x hx
    rcases List.mem_cons.mp hx with rfl | hx
    · have ceq : countQ " = ?" = 1 := by decide
      simp [countQ_append, wrap_noQ_pair h1, ceq]
    · exact he x hx

theorem compileUpdateE_countQ {b : Builder} {data : DataMap} {s : String}
    {a : List GoValue} (h : compileUpdateE b data = .ok (s, a))
    (hw : clausesBalanced b.wheres = true) : countQ s = a.length := by
  unfold compileUpdateE at h
  split at h
  · cases h
  split at h
  · cases h
  obtain ⟨table, h1, h⟩ := exceptBind_ok h
  obtain ⟨setParts, h2, h⟩ := exceptBind_ok h
  obtain ⟨⟨whereStr, whereArgs⟩, h3, h⟩ := exceptBind_ok h
  simp only [pure, Except.pure, Except.ok.injEq] at h
  cases h
  have csep : countQ ", " = 0 := by decide
  have c1 : countQ "UPDATE " = 0 := by decide
  have c2 : countQ " SET " = 0 := by decide
  obtain ⟨hl, he⟩ := updateSetParts_counts h2
  have hsp : countQ (goJoin ", " setParts) = setParts.length := by
    rw [countQ_goJoin_sum csep]
    have : setParts.map countQ = setParts.map (fun _ => 1) := by
      apply List.map_congr_left
      intro x hx
      simp [he x hx]
    rw [this, sum_map_constNat]
    omega
  simp only [countQ_append, c1, c2, wrapTable_noQ (exceptOfPair_ok h1), hsp, hl,
    wherePart_countQ h3 (by decide) hw, List.length_append, List.length_map]
  omega

theorem compileDeleteE_countQ {b : Builder} {s : String} {a : List GoValue}
    (h : compileDeleteE b = .ok (s, a)) (hw : clausesBalanced b.wheres = true) :
    countQ s = a.length := by
  unfold compileDeleteE at h
  split at h
  · cases h
  obtain ⟨table, h1, h⟩ := exceptBind_ok h
  obtain ⟨⟨whereStr, whereArgs⟩, h2, h⟩ := exceptBind_ok h
  simp only [pure, Except.pure, Except.ok.injEq] at h
  cases h
  have c1 : countQ "DELETE FROM " = 0 := by decide
  simp only [countQ_append, c1, wrapTable_noQ (exceptOfPair_ok h1),
    wherePart_countQ h2 (by decide) hw]
  omega

theorem compileExistsE_countQ {b : Builder} {s : String} {a : List GoValue}
    (h : compileExistsE b = .ok (s, a)) (hw : clausesBalanced b.wheres = true) :
    countQ s = a.length := by
  unfold compileExistsE at h
  split at h
  · cases h
  obtain ⟨table, h1, h⟩ := exceptBind_ok h
  obtain ⟨⟨whereStr, whereArgs⟩, h2, h⟩ := exceptBind_ok h
  simp only [pure, Except.pure, Except.ok.injEq] at h
  cases h
  have c1 : countQ "SELECT EXISTS(SELECT 1 FROM " = 0 := by decide
  have c2 : countQ " LIMIT 1)" = 0 := by decide
  simp only [countQ_append, c1, c2, wrapTable_noQ (exceptOfPair_ok h1),
    wherePart_countQ h2 (by decide) hw]
  omega

theorem countExprPart_noQ {column : String} {s : String}
    (h : countExprPart column = .ok s) : countQ s = 0 := by
  unfold countExprPart at h
  split at h
  · cases h
    decide
  · obtain ⟨w, h1, h⟩ := exceptBind_ok h
    simp only [pure, Except.pure, Except.ok.injEq] at h
    subst h
    have c1 : countQ "COUNT(" = 0 := by decide
    have c2 : countQ ")" = 0 := by decide
    simp [countQ_append, c1, c2, wrap_noQ_pair h1]

theorem compileCountE_countQ {b : Builder} {column : String} {s : String}
    {a : List GoValue} (h : compileCountE b column = .ok (s, a))
    (hw : clausesBalanced b.wheres = true) : countQ s = a.length := by
  unfold compileCountE at h
  split at h
  · cases h
  obtain ⟨countExpr, h1, h⟩ := exceptBind_ok h
  obtain ⟨table, h2, h⟩ := exceptBind_ok h
  obtain ⟨⟨whereStr, whereArgs⟩, h3, h⟩ := exceptBind_ok h
  simp only [pure, Except.pure, Except.ok.injEq] at h
  cases h
  have c1 : countQ "SELECT " = 0 := by decide
  have c2 : countQ " FROM " = 0 := by decide
  simp only [countQ_append, c1, c2, countExprPart_noQ h1,
    wrapTable_noQ (exceptOfPair_ok h2), wherePart_countQ h3 (by decide) hw]
  omega

theorem compileAggregateE_countQ {b : Builder} {fn column : String} {s : String}
    {a : List GoValue} (h : compileAggregateE b fn column = .ok (s, a))
    (hfn : countQ fn = 0) (hw : clausesBalanced b.wheres = true) :
    countQ s = a.length := by
  unfold compileAggregateE at h
  split at h
  · cases h
  split at h
  · cases h
  obtain ⟨w, h1, h⟩ := exceptBind_ok h
  obtain ⟨table, h2, h⟩ := exceptBind_ok h
  obtain ⟨⟨whereStr, whereArgs⟩, h3, h⟩ := exceptBind_ok h
  simp only [pure, Except.pure, Except.ok.injEq] at h
  cases h
  have c1 : countQ "SELECT " = 0 := by decide
  have c2 : countQ "(" = 0 := by decide
  have c3 : countQ ") FROM " = 0 := by decide
  simp only [countQ_append, c1, c2, c3, countQ_goToUpper hfn, wrap_noQ_pair h1,
    wrapTable_noQ (exceptOfPair_ok h2), wherePart_countQ h3 (by decide) hw]
  omega

theorem upsertParts_noQ {cols : List String} {l : List String}
    (h : upsertParts cols = .ok l) : ∀ x ∈ l, countQ x = 0 := by
  induction cols generalizing l with
  | nil =>
    rw [upsertParts] at h
    cases h
    simp
  | cons c rest ih =>
    rw [upsertParts] at h
    obtain ⟨w, h1, h⟩ := exceptBind_ok h
    obtain ⟨ws, h2, h⟩ := exceptBind_ok h
    simp only [pure, Except.pure, Except.ok.injEq] at h
    subst h
    intro x hx
    rcases List.mem_cons.mp hx with rfl | hx
    · have c1 : countQ " = VALUES(" = 0 := by decide
      have c2 : countQ ")" = 0 := by decide
      simp [countQ_append, wrap_noQ_pair h1, c1, c2]
    · exact ih h2 x hx

theorem compileUpsertE_countQ {b : Builder} {data : DataMap}
    {updateColumns : List String} {s : String} {a : List GoValue}
    (h : compileUpsertE b data updateColumns = .ok (s, a)) :
    countQ s = a.length := by
  unfold compileUpsertE at h
  obtain ⟨⟨insertSQL, args⟩, h1, h⟩ := exceptBind_ok h
  obtain ⟨parts, h2, h⟩ := exceptBind_ok h
  simp only [pure, Except.pure, Except.ok.injEq] at h
  cases h
  have csep : countQ ", " = 0 := by decide
  have c1 : countQ " ON DUPLICATE KEY UPDATE " = 0 := by decide
  simp only [countQ_append, c1, compileInsertE_countQ h1,
    countQ_goJoin csep (upsertParts_noQ h2)]
  omega


/-! ## Claims: error short-circuiting, connectors, value isolation -/


/-- C6: compilation is all-or-nothing — for every compile method of the
MySQL grammar and every input, whenever the returned error is non-nil the
returned SQL string is empty (and the argument list is nil); no partial
SQL text is ever returned alongside an error. -/
theorem claim_C6_all_or_nothing (b : Builder) (data : DataMap) (rows : List DataMap)
    (column fn : String) (updateColumns : List String) :
    ((CompileSelect b).2.2 ≠ none → (CompileSelect b).1 = "" ∧ (CompileSelect b).2.1 = []) ∧
    ((CompileInsert b data).2.2 ≠ none → (CompileInsert b data).1 = "" ∧ (CompileInsert b data).2.1 = []) ∧
    ((CompileInsertBatch b rows).2.2 ≠ none → (CompileInsertBatch b rows).1 = "" ∧ (CompileInsertBatch b rows).2.1 = []) ∧
    ((CompileUpdate b data).2.2 ≠ none → (CompileUpdate b data).1 = "" ∧ (CompileUpdate b data).2.1 = []) ∧
    ((CompileDelete b).2.2 ≠ none → (CompileDelete b).1 = "" ∧ (CompileDelete b).2.1 = []) ∧
    ((CompileExists b).2.2 ≠ none → (CompileExists b).1 = "" ∧ (CompileExists b).2.1 = []) ∧
    ((CompileCount b column).2.2 ≠ none → (CompileCount b column).1 = "" ∧ (CompileCount b column).2.1 = []) ∧
    ((CompileAggregate b fn column).2.2 ≠ none → (CompileAggregate b fn column).1 = "" ∧ (CompileAggregate b fn column).2.1 = []) ∧
    ((CompileUpsert b data updateColumns).2.2 ≠ none → (CompileUpsert b data updateColumns).1 = "" ∧ (CompileUpsert b data updateColumns).2.1 = []) ∧
    ((CompileTruncate b).2 ≠ none → (CompileTruncate b).1 = "") := by
  refine ⟨?_, ?_, ?_, ?_, ?_, ?_, ?_, ?_, ?_, ?_⟩
  · cases h : compileSelectE b <;> simp [CompileSelect, h]
  · cases h : compileInsertE b data <;> simp [CompileInsert, h]
  · cases h : compileInsertBatchE b rows <;> simp [CompileInsertBatch, h]
  · cases h : compileUpdateE b data <;> simp [CompileUpdate, h]
  · cases h : compileDeleteE b <;> simp [CompileDelete, h]
  · cases h : compileExistsE b <;> simp [CompileExists, h]
  · cases h : compileCountE b column <;> simp [CompileCount, h]
  · cases h : compileAggregateE b fn column <;> simp [CompileAggregate, h]
  · cases h : compileUpsertE b data updateColumns <;> simp [CompileUpsert, h]
  · unfold CompileTruncate
    split
    · simp
    · split
      · simp
      · simp

theorem claim_C6_witness :
    (CompileSelect {} : String × List GoValue × Option Err).2.2 ≠ none ∧
    (CompileSelect {} : String × List GoValue × Option Err).1 = "" := by
  refine ⟨by decide, ?_⟩
  exact ((claim_C6_all_or_nothing {} [] [] "" "" []).1 (by decide)).1

/-- C7: for every Builder whose accumulated error field is non-nil, each
compilation entry point `ToSelectSQL`, `ToInsertSQL`, `ToUpdateSQL` and
`ToDeleteSQL` short-circuits and returns that same first error with an
empty SQL string and nil arguments, for every builder state — the grammar
is never consulted. -/
theorem claim_C7_sticky_error (b : Builder) (e : Err) (data data2 : DataMap)
    (h : b.err = some e) :
    ToSelectSQL b = ("", [], some e) ∧ ToInsertSQL b data = ("", [], some e) ∧
    ToUpdateSQL b data2 = ("", [], some e) ∧ ToDeleteSQL b = ("", [], some e) := by
  unfold ToSelectSQL ToInsertSQL ToUpdateSQL ToDeleteSQL
  rw [h]
  exact ⟨rfl, rfl, rfl, rfl⟩

theorem claim_C7_witness :
    ToSelectSQL { err := some Err.noColumns, table := "users" } = ("", [], some Err.noColumns) :=
  (claim_C7_sticky_error { err := some Err.noColumns, table := "users" }
    Err.noColumns [] [] rfl).1

theorem strAppend_assoc (a b c : String) : a ++ b ++ c = a ++ (b ++ c) := by
  apply String.ext
  simp [String.data_append]

theorem compileWhere_emptyNested (bo : WhereBoolean) :
    compileWhere (.mk .nested bo "" "" .null [] [] "" []) = .ok ("", []) := by
  rw [compileWhere.eq_def]
  show compileWhereNested [] = Except.ok ("", [])
  rw [compileWhereNested.eq_def]
  rfl

theorem compileWhere_emptyRaw (bo : WhereBoolean) :
    compileWhere (.mk .raw bo "" "" .null [] [] "" []) = .ok ("", []) := by
  rw [compileWhere.eq_def]

theorem compileWheresRest_append_empty {rest : List WhereClause} {s2 : String}
    {a2 : List GoValue} (h : compileWheresRest rest = .ok (s2, a2))
    {w' : WhereClause} (hw : compileWhere w' = .ok ("", [])) :
    compileWheresRest (rest ++ [w']) = .ok (s2 ++ " " ++ w'.boolean.toSQL ++ " ", a2) := by
  induction rest generalizing s2 a2 with
  | nil =>
    rw [compileWheresRest] at h
    cases h
    rw [List.nil_append, compileWheresRest, hw]
    rw [compileWheresRest]
    simp [Bind.bind, Except.bind, pure, Except.pure]
  | cons x xs ih =>
    rw [compileWheresRest] at h
    obtain ⟨⟨sx, ax⟩, h1, h⟩ := exceptBind_ok h
    obtain ⟨⟨sr, ar⟩, h2, h⟩ := exceptBind_ok h
    simp only [pure, Except.pure, Except.ok.injEq] at h
    cases h
    rw [List.cons_append, compileWheresRest, h1, ih h2]
    simp [Bind.bind, Except.bind, pure, Except.pure, strAppend_assoc]

/-- C10: if a predicate list compiles to `(s, a)` and a `Nested` clause
with empty children (or a `Raw` clause with empty text) is appended at an
index > 0, compilation still succeeds with no error, but the emitted
predicate string is `s` followed by that entry's ` AND `/` OR ` connector
and an empty clause — a dangling connector. -/
theorem claim_C10_dangling_connector (ws : List WhereClause) (s : String)
    (a : List GoValue) (bo : WhereBoolean) (h : compileWheres ws = .ok (s, a))
    (hne : ws ≠ []) :
    compileWheres (ws ++ [.mk .nested bo "" "" .null [] [] "" []]) =
      .ok (s ++ " " ++ bo.toSQL ++ " ", a) ∧
    compileWheres (ws ++ [.mk .raw bo "" "" .null [] [] "" []]) =
      .ok (s ++ " " ++ bo.toSQL ++ " ", a) := by
  rcases ws with _ | ⟨w, rest⟩
  · exact absurd rfl hne
  rw [compileWheres] at h
  obtain ⟨⟨s1, a1⟩, h1, h⟩ := exceptBind_ok h
  obtain ⟨⟨s2, a2⟩, h2, h⟩ := exceptBind_ok h
  simp only [pure, Except.pure, Except.ok.injEq] at h
  cases h
  constructor
  · rw [List.cons_append, compileWheres, h1,
      compileWheresRest_append_empty h2 (compileWhere_emptyNested bo)]
    simp [Bind.bind, Except.bind, pure, Except.pure, WhereClause.boolean,
      strAppend_assoc]
  · rw [List.cons_append, compileWheres, h1,
      compileWheresRest_append_empty h2 (compileWhere_emptyRaw bo)]
    simp [Bind.bind, Except.bind, pure, Except.pure, WhereClause.boolean,
      strAppend_assoc]

theorem claim_C10_witness :
    compileWheres [WhereClause.mk .basic .and "a" "=" (.int 1) [] [] "" [],
      WhereClause.mk .nested .and "" "" .null [] [] "" []] =
      .ok ("`a` = ? AND ", [GoValue.int 1]) := by
  have h : compileWheres [WhereClause.mk .basic .and "a" "=" (.int 1) [] [] "" []] =
      .ok ("`a` = ?", [GoValue.int 1]) := by
    rw [compileWheres, compileWheresRest]
    simp [compileWhere.eq_def, compileWhereBasic]
    rfl
  exact (claim_C10_dangling_connector _ _ _ .and h (by simp)).1



theorem compileWhere_setBoolean (w : WhereClause) (bo : WhereBoolean) :
    compileWhere (w.setBoolean bo) = compileWhere w := by
  cases w with
  | mk t b col op v vals nested raw bindings =>
    rw [WhereClause.setBoolean]
    rw [compileWhere.eq_def, compileWhere.eq_def]

/-- C5: when compiling a WHERE/HAVING predicate list, the connector of the
predicate at index 0 is never emitted (changing it never changes the
output), each predicate at index > 0 is prefixed by its own connector,
the rule applies recursively inside `Nested` groups whose compiled text is
parenthesized, and the predicate list `[A (AND), Nested[B (AND), C (OR)]
(AND)]` compiles to `A AND (B OR C)`. -/
theorem claim_C5_connectors :
    (∀ (w : WhereClause) (rest : List WhereClause) (bo : WhereBoolean),
      compileWheres (w.setBoolean bo :: rest) = compileWheres (w :: rest)) ∧
    (∀ (bo : WhereBoolean) (col op : String) (v : GoValue) (vals : List GoValue)
        (raw : String) (bindings : List GoValue) (w : WhereClause) (ws : List WhereClause),
      compileWhere (.mk .nested bo col op v vals (w :: ws) raw bindings) =
        (compileWheres (w :: ws)).map (fun p => ("(" ++ p.1 ++ ")", p.2))) ∧
    (compileWheres [.mk .basic .and "a" "=" (.int 1) [] [] "" [],
        .mk .nested .and "" "" .null []
          [.mk .basic .and "b" "=" (.int 2) [] [] "" [],
           .mk .basic .or "c" "=" (.int 3) [] [] "" []] "" []] =
      .ok ("`a` = ? AND (`b` = ? OR `c` = ?)",
        [GoValue.int 1, GoValue.int 2, GoValue.int 3])) := by
  refine ⟨?_, ?_, ?_⟩
  · intro w rest bo
    rw [compileWheres, compileWheres, compileWhere_setBoolean]
  · intro bo col op v vals raw bindings w ws
    rw [compileWhere.eq_def]
    show compileWhereNested (w :: ws) = _
    rw [compileWhereNested.eq_def]
    simp only [List.isEmpty_cons, Bool.false_eq_true, if_false]
    cases h : compileWheres (w :: ws) with
    | error e => simp [Bind.bind, Except.bind, Except.map]
    | ok p =>
      rcases p with ⟨s, a⟩
      simp [Bind.bind, Except.bind, Except.map, pure, Except.pure]
  · simp only [compileWheres, compileWheresRest, compileWhere, compileWhereNested,
      compileWhereBasic]
    rfl

/-- C9: value isolation for predicates of kind Basic/In/Between/Date —
two compilations of the same clause shape that differ only in the bound
values produce identical SQL text (and identical errors), and the bound
values appear only in the returned argument list, in placeholder order. -/
theorem claim_C9_value_isolation (t : WhereType)
    (ht : t = .basic ∨ t = .inOp ∨ t = .between ∨ t = .date)
    (bo : WhereBoolean) (col op : String) (v v' : GoValue)
    (vals vals' : List GoValue) (hlen : vals'.length = vals.length)
    (nested : List WhereClause) (raw : String) (bindings : List GoValue) :
    ((compileWhere (.mk t bo col op v' vals' nested raw bindings)).map Prod.fst =
      (compileWhere (.mk t bo col op v vals nested raw bindings)).map Prod.fst) ∧
    (∀ s a, compileWhere (.mk t bo col op v vals nested raw bindings) = .ok (s, a) →
      a = (match t with
           | .basic => [v]
           | .date => [v]
           | _ => vals)) := by
  have hmap : vals'.map (fun _ => "?") = vals.map (fun _ => "?") := by
    have h1 : vals'.map (fun _ => "?") = List.replicate vals'.length "?" := List.map_const' _ _
    have h2 : vals.map (fun _ => "?") = List.replicate vals.length "?" := List.map_const' _ _
    rw [h1, h2, hlen]
  have hemp : vals'.isEmpty = vals.isEmpty := by
    cases vals' <;> cases vals <;> simp_all
  rcases ht with rfl | rfl | rfl | rfl
  · constructor
    · rw [compileWhere.eq_def, compileWhere.eq_def]
      show (compileWhereBasic col op v').map Prod.fst = (compileWhereBasic col op v).map Prod.fst
      unfold compileWhereBasic
      rcases Wrap col with ⟨c, _ | e⟩
      · rcases ValidateOperator op with _ | e <;> rfl
      · rfl
    · intro s a h
      rw [compileWhere.eq_def] at h
      replace h : compileWhereBasic col op v = .ok (s, a) := h
      unfold compileWhereBasic at h
      split at h
      · cases h
      · split at h
        · cases h
        · cases h
          rfl
  · constructor
    · rw [compileWhere.eq_def, compileWhere.eq_def]
      show (compileWhereIn col vals' false).map Prod.fst =
        (compileWhereIn col vals false).map Prod.fst
      unfold compileWhereIn
      rw [hemp, hmap]
      split
      · rfl
      · rcases Wrap col with ⟨c, _ | e⟩ <;> rfl
    · intro s a h
      rw [compileWhere.eq_def] at h
      replace h : compileWhereIn col vals false = .ok (s, a) := h
      unfold compileWhereIn at h
      split at h
      · cases h
      · split at h
        · cases h
        · cases h
          rfl
  · constructor
    · rw [compileWhere.eq_def, compileWhere.eq_def]
      show (compileWhereBetween col vals' false).map Prod.fst =
        (compileWhereBetween col vals false).map Prod.fst
      unfold compileWhereBetween
      rw [hlen]
      split
      · rfl
      · rcases Wrap col with ⟨c, _ | e⟩ <;> rfl
    · intro s a h
      rw [compileWhere.eq_def] at h
      replace h : compileWhereBetween col vals false = .ok (s, a) := h
      unfold compileWhereBetween at h
      split at h
      · cases h
      · split at h
        · cases h
        · cases h
          rfl
  · constructor
    · rw [compileWhere.eq_def, compileWhere.eq_def]
      show (compileWhereDate col v' "DATE").map Prod.fst =
        (compileWhereDate col v "DATE").map Prod.fst
      unfold compileWhereDate
      rcases Wrap col with ⟨c, _ | e⟩ <;> rfl
    · intro s a h
      rw [compileWhere.eq_def] at h
      replace h : compileWhereDate col v "DATE" = .ok (s, a) := h
      unfold compileWhereDate at h
      split at h
      · cases h
      · cases h
        rfl

theorem claim_C9_witness :
    (compileWhere (.mk .basic .and "a" "=" (.str "secret2") [] [] "" [])).map Prod.fst =
      (compileWhere (.mk .basic .and "a" "=" (.str "secret1") [] [] "" [])).map Prod.fst ∧
    (0 : Nat) = 0 := by
  refine ⟨?_, rfl⟩
  exact (claim_C9_value_isolation .basic (Or.inl rfl) .and "a" "="
    (.str "secret1") (.str "secret2") [] [] rfl [] "" []).1


/-! ## Claims: insert determinism and batch uniformity -/


-- ordering facts for goStringLe / StrLe
theorem goCharsLe_total (a b : List Char) :
    goCharsLe a b = true ∨ goCharsLe b a = true := by
  induction a generalizing b with
  | nil => left; rw [goCharsLe]
  | cons x xs ih =>
    cases b with
    | nil => right; rw [goCharsLe]
    | cons y ys =>
      rw [goCharsLe, goCharsLe]
      rcases lt_trichotomy x y with h | h | h
      · left; simp [h]
      · subst h
        simp only [lt_irrefl, if_false]
        exact ih ys
      · right; simp [h]

theorem goCharsLe_trans {a b c : List Char} (h1 : goCharsLe a b = true)
    (h2 : goCharsLe b c = true) : goCharsLe a c = true := by
  induction a generalizing b c with
  | nil => rw [goCharsLe]
  | cons x xs ih =>
    cases b with
    | nil => rw [goCharsLe] at h1; cases h1
    | cons y ys =>
      cases c with
      | nil => rw [goCharsLe] at h2; cases h2
      | cons z zs =>
        rw [goCharsLe] at h1 h2 ⊢
        rcases lt_trichotomy x y with hxy | hxy | hxy
        · rcases lt_trichotomy y z with hyz | hyz | hyz
          · simp [lt_trans hxy hyz]
          · subst hyz; simp [hxy]
          · -- y > z: h2 must be false unless... check h2
            simp [hyz, not_lt_of_gt hyz] at h2
        · subst hxy
          rcases lt_trichotomy x z with hyz | hyz | hyz
          · simp [hyz]
          · subst hyz
            simp only [lt_irrefl, if_false] at h1 h2 ⊢
            exact ih h1 h2
          · simp [hyz, not_lt_of_gt hyz] at h2
        · simp [hxy, not_lt_of_gt hxy] at h1

theorem goCharsLe_antisymm {a b : List Char} (h1 : goCharsLe a b = true)
    (h2 : goCharsLe b a = true) : a = b := by
  induction a generalizing b with
  | nil =>
    cases b with
    | nil => rfl
    | cons y ys => rw [goCharsLe] at h2; cases h2
  | cons x xs ih =>
    cases b with
    | nil => rw [goCharsLe] at h1; cases h1
    | cons y ys =>
      rw [goCharsLe] at h1 h2
      rcases lt_trichotomy x y with hxy | hxy | hxy
      · simp [hxy, not_lt_of_gt hxy] at h2
      · subst hxy
        simp only [lt_irrefl, if_false] at h1 h2
        rw [ih h1 h2]
      · simp [hxy, not_lt_of_gt hxy] at h1

instance : IsTotal String StrLe :=
  ⟨fun a b => goCharsLe_total a.data b.data⟩

instance : IsTrans String StrLe :=
  ⟨fun _ _ _ h1 h2 => goCharsLe_trans h1 h2⟩

instance : IsAntisymm String StrLe :=
  ⟨fun _ _ h1 h2 => String.ext (goCharsLe_antisymm h1 h2)⟩

theorem sortStrings_perm_eq {l l' : List String} (h : l.Perm l') :
    sortStrings l = sortStrings l' := by
  refine List.eq_of_perm_of_sorted ?_ (List.sorted_insertionSort _ _)
    (List.sorted_insertionSort _ _)
  exact ((List.perm_insertionSort _ _).trans h).trans
    (List.perm_insertionSort _ _).symm

theorem sortedKeys_perm_eq {data data' : DataMap} (h : data.Perm data') :
    sortedKeys data = sortedKeys data' :=
  sortStrings_perm_eq (h.map Prod.fst)

theorem lookup_perm {l l' : List (String × GoValue)} (h : l.Perm l')
    (hnd : (l.map Prod.fst).Nodup) (k : String) : l.lookup k = l'.lookup k := by
  induction h with
  | nil => rfl
  | cons x h ih =>
    rw [List.lookup, List.lookup]
    cases hk : k == x.1
    · exact ih (by simpa using (List.nodup_cons.mp (by simpa using hnd)).2)
    · rfl
  | swap x y l =>
    rw [List.lookup, List.lookup, List.lookup, List.lookup]
    cases hky : k == y.1 <;> cases hkx : k == x.1 <;> simp [hky, hkx]
    · -- k equals both keys: contradicts nodup
      have h1 : k = y.1 := by simpa using hky
      have h2 : k = x.1 := by simpa using hkx
      have : y.1 ≠ x.1 := by
        simp only [List.map_cons, List.nodup_cons] at hnd
        intro he
        exact hnd.1 (by simp [he])
      exact absurd (h1 ▸ h2 ▸ rfl : y.1 = x.1) this
  | trans h1 h2 ih1 ih2 =>
    rw [ih1 hnd, ih2]
    rw [← List.Perm.nodup_iff (h1.map Prod.fst)]
    exact hnd

theorem mapGet_perm {l l' : DataMap} (h : l.Perm l')
    (hnd : (l.map Prod.fst).Nodup) (k : String) : mapGet l k = mapGet l' k := by
  unfold mapGet
  rw [lookup_perm h hnd k]

theorem compileInsertE_args {b : Builder} {data : DataMap} {s : String}
    {a : List GoValue} (h : compileInsertE b data = .ok (s, a)) :
    a = (sortedKeys data).map (mapGet data) := by
  unfold compileInsertE at h
  split at h
  · cases h
  split at h
  · cases h
  obtain ⟨table, h1, h⟩ := exceptBind_ok h
  obtain ⟨cols, h2, h⟩ := exceptBind_ok h
  simp only [pure, Except.pure, Except.ok.injEq, Prod.mk.injEq] at h
  exact h.2.symm

/-- C3: `CompileInsert` emits columns in lexicographically sorted key
order with one placeholder and one argument per column in that order
(`users` example included verbatim), the returned arguments are exactly
the sorted keys' values, and two calls with permuted key/value pairs
(unique keys) yield identical SQL and identically ordered arguments. -/
theorem claim_C3_insert_sorted_deterministic :
    (CompileInsert { table := "users" }
        [("name", GoValue.str "John"), ("email", GoValue.str "j@x.com")] =
      ("INSERT INTO `users` (`email`, `name`) VALUES (?, ?)",
        [GoValue.str "j@x.com", GoValue.str "John"], none)) ∧
    (∀ (b : Builder) (data : DataMap),
      (CompileInsert b data).2.2 = none →
        (CompileInsert b data).2.1 = (sortedKeys data).map (mapGet data)) ∧
    (∀ (b : Builder) (data data' : DataMap), data.Perm data' →
      (data.map Prod.fst).Nodup → CompileInsert b data = CompileInsert b data') := by
  refine ⟨rfl, ?_, ?_⟩
  · intro b data h
    cases he : compileInsertE b data with
    | error e => simp [CompileInsert, he] at h
    | ok p =>
      rcases p with ⟨s, a⟩
      simp [CompileInsert, he]
      exact compileInsertE_args he
  · intro b data data' hperm hnd
    have hkeys : sortedKeys data = sortedKeys data' := sortedKeys_perm_eq hperm
    have hempty : data.isEmpty = data'.isEmpty := by
      cases hd : data <;> cases hd' : data' <;> simp_all [List.Perm.eq_nil, List.Perm.nil_eq]
    have hget : (sortedKeys data').map (mapGet data) =
        (sortedKeys data').map (mapGet data') :=
      List.map_congr_left (fun k _ => mapGet_perm hperm hnd k)
    simp only [CompileInsert, compileInsertE]
    rw [hkeys, hempty, hget]


theorem claim_C3_witness :
    ((CompileInsert { table := "t" } [("b", GoValue.int 2), ("a", GoValue.int 1)]).2.1 =
      (sortedKeys [("b", GoValue.int 2), ("a", GoValue.int 1)]).map
        (mapGet [("b", GoValue.int 2), ("a", GoValue.int 1)])) ∧
    (CompileInsert { table := "t" } [("a", GoValue.int 1), ("b", GoValue.int 2)] =
      CompileInsert { table := "t" } [("b", GoValue.int 2), ("a", GoValue.int 1)]) :=
  ⟨claim_C3_insert_sorted_deterministic.2.1 _ _ rfl,
   claim_C3_insert_sorted_deterministic.2.2 _ _ _ (by decide) (by decide)⟩


theorem lookup_isSome_of_mem_keys {l : DataMap} {k : String}
    (h : k ∈ l.map Prod.fst) : (l.lookup k).isSome := by
  induction l with
  | nil => cases h
  | cons x xs ih =>
    rw [List.lookup]
    cases hk : k == x.1
    · apply ih
      simp only [List.map_cons, List.mem_cons] at h
      rcases h with rfl | h
      · simp at hk
      · exact h
    · simp

theorem lookupAll_error_of_missing {ks : List String} {r : DataMap}
    (h : ∃ k ∈ ks, r.lookup k = none) :
    batchRowArgs.lookupAll ks r = .error .inconsistentBatch := by
  induction ks with
  | nil => simp at h
  | cons k0 rest ih =>
    rw [batchRowArgs.lookupAll]
    obtain ⟨k, hk, hnone⟩ := h
    rcases List.mem_cons.mp hk with rfl | hm
    · rw [hnone]
    · cases hl : r.lookup k0
      · rfl
      · rw [ih ⟨k, hm, hnone⟩]
        rfl

theorem lookupAll_ok_of_found {ks : List String} {r : DataMap}
    (h : ∀ k ∈ ks, (r.lookup k).isSome) :
    batchRowArgs.lookupAll ks r = .ok (ks.filterMap r.lookup) := by
  induction ks with
  | nil => rw [batchRowArgs.lookupAll]; rfl
  | cons k0 rest ih =>
    rw [batchRowArgs.lookupAll]
    cases hl : r.lookup k0 with
    | none =>
      have := h k0 (List.mem_cons_self _ _)
      rw [hl] at this
      cases this
    | some v =>
      rw [ih (fun k hk => h k (List.mem_cons_of_mem _ hk))]
      simp [List.filterMap_cons, hl, Bind.bind, Except.bind, pure, Except.pure]

theorem batchRowArgs_error_or_ok (ks : List String) (r : DataMap) :
    batchRowArgs ks r = .error .inconsistentBatch ∨
    batchRowArgs ks r = .ok (ks.filterMap r.lookup) := by
  unfold batchRowArgs
  split
  · exact Or.inl rfl
  · by_cases h : ∀ k ∈ ks, (r.lookup k).isSome
    · exact Or.inr (lookupAll_ok_of_found h)
    · left
      apply lookupAll_error_of_missing
      push_neg at h
      obtain ⟨k, hk, hnone⟩ := h
      refine ⟨k, hk, ?_⟩
      cases hv : r.lookup k
      · rfl
      · rw [hv] at hnone
        simp at hnone

theorem batchRows_error_of_bad {keys : List String} {rows : List DataMap}
    (h : ∃ r ∈ rows, r.length ≠ keys.length ∨ ∃ k ∈ keys, r.lookup k = none) :
    batchRows keys rows = .error .inconsistentBatch := by
  induction rows with
  | nil => simp at h
  | cons r0 rest ih =>
    rw [batchRows]
    obtain ⟨r, hr, hbad⟩ := h
    rcases List.mem_cons.mp hr with rfl | hm
    · have : batchRowArgs keys r = .error .inconsistentBatch := by
        unfold batchRowArgs
        rcases hbad with hlen | hmiss
        · rw [if_pos hlen]
        · split
          · rfl
          · exact lookupAll_error_of_missing hmiss
      rw [this]
      rfl
    · rcases batchRowArgs_error_or_ok keys r0 with he | hok
      · rw [he]; rfl
      · rw [hok, ih ⟨r, hm, hbad⟩]
        rfl

theorem batchRows_ok_of_good {keys : List String} {rows : List DataMap}
    (h : ∀ r ∈ rows, r.length = keys.length ∧ ∀ k ∈ keys, (r.lookup k).isSome) :
    batchRows keys rows = .ok (rows.map (fun r => keys.filterMap r.lookup)) := by
  induction rows with
  | nil => rw [batchRows]; rfl
  | cons r0 rest ih =>
    rw [batchRows]
    obtain ⟨hlen, hfound⟩ := h r0 (List.mem_cons_self _ _)
    have h1 : batchRowArgs keys r0 = .ok (keys.filterMap r0.lookup) := by
      unfold batchRowArgs
      rw [if_neg (by omega)]
      exact lookupAll_ok_of_found hfound
    rw [h1, ih (fun r hr => h r (List.mem_cons_of_mem _ hr))]
    simp [Bind.bind, Except.bind, pure, Except.pure]

/-- C4: `CompileInsertBatch`, on a non-empty row list with a non-empty
first row (and a valid table and key set), fails with
`ErrInconsistentBatch` whenever some subsequent row has a different key
count or lacks a key of the first row; when every row carries exactly the
first row's key set it succeeds, emitting one parenthesized VALUES tuple
per row and one flat row-major argument sequence in sorted-key order. -/
theorem claim_C4_batch_uniformity (b : Builder) (r0 : DataMap) (rest : List DataMap)
    (wt : String) (wcols : List String) (h0 : r0 ≠ [])
    (hwt : WrapTable b.table = (wt, none))
    (hwc : wrapAll (sortedKeys r0) = .ok wcols) :
    ((∃ r ∈ rest, r.length ≠ r0.length ∨ ∃ k ∈ sortedKeys r0, r.lookup k = none) →
      CompileInsertBatch b (r0 :: rest) = ("", [], some .inconsistentBatch)) ∧
    ((∀ r ∈ rest, r.length = r0.length ∧ ∀ k ∈ sortedKeys r0, (r.lookup k).isSome) →
      CompileInsertBatch b (r0 :: rest) =
        ("INSERT INTO " ++ wt ++ " (" ++ goJoin ", " wcols ++ ") VALUES " ++
          goJoin ", " ((r0 :: rest).map (fun _ =>
            "(" ++ goJoin ", " ((sortedKeys r0).map (fun _ => "?")) ++ ")")),
         ((r0 :: rest).map (fun r => (sortedKeys r0).filterMap r.lookup)).flatten,
         none)) := by
  have htne : b.table ≠ "" := by
    intro he
    rw [he] at hwt
    simp [WrapTable, ValidateTableWithAlias] at hwt
  have hkeyslen : (sortedKeys r0).length = r0.length := by
    unfold sortedKeys sortStrings
    rw [(List.perm_insertionSort StrLe (r0.map Prod.fst)).length_eq]
    simp
  have hr0ne : r0.isEmpty = false := by
    cases r0
    · exact absurd rfl h0
    · rfl
  have hr0good : r0.length = (sortedKeys r0).length ∧
      ∀ k ∈ sortedKeys r0, (r0.lookup k).isSome := by
    refine ⟨hkeyslen.symm, fun k hk => ?_⟩
    apply lookup_isSome_of_mem_keys
    have : k ∈ sortStrings (r0.map Prod.fst) := hk
    exact (List.perm_insertionSort StrLe (r0.map Prod.fst)).mem_iff.mp this
  constructor
  · intro hbad
    have hrows : batchRows (sortedKeys r0) (r0 :: rest) = .error .inconsistentBatch := by
      apply batchRows_error_of_bad
      obtain ⟨r, hr, hb⟩ := hbad
      refine ⟨r, List.mem_cons_of_mem _ hr, ?_⟩
      rcases hb with hl | hm
      · exact Or.inl (by omega)
      · exact Or.inr hm
    unfold CompileInsertBatch compileInsertBatchE
    rw [if_neg htne]
    simp only [hr0ne, Bool.false_eq_true, if_false, hwt, hwc, hrows]
    simp [exceptOfPair, Bind.bind, Except.bind]
  · intro hgood
    have hrows : batchRows (sortedKeys r0) (r0 :: rest) =
        .ok ((r0 :: rest).map (fun r => (sortedKeys r0).filterMap r.lookup)) := by
      apply batchRows_ok_of_good
      intro r hr
      rcases List.mem_cons.mp hr with rfl | hm
      · exact ⟨hr0good.1, hr0good.2⟩
      · obtain ⟨h1, h2⟩ := hgood r hm
        exact ⟨by omega, h2⟩
    unfold CompileInsertBatch compileInsertBatchE
    rw [if_neg htne]
    simp only [hr0ne, Bool.false_eq_true, if_false, hwt, hwc, hrows]
    simp [exceptOfPair, Bind.bind, Except.bind, pure, Except.pure]

theorem claim_C4_witness :
    (CompileInsertBatch { table := "t" } [[("a", GoValue.int 1)], [("b", GoValue.int 2)]] =
      ("", [], some .inconsistentBatch)) ∧
    (CompileInsertBatch { table := "t" } [[("a", GoValue.int 1)], [("a", GoValue.int 2)]] =
      ("INSERT INTO `t` (`a`) VALUES (?), (?)", [GoValue.int 1, GoValue.int 2], none)) := by
  constructor
  · exact (claim_C4_batch_uniformity { table := "t" } [("a", GoValue.int 1)]
      [[("b", GoValue.int 2)]] "`t`" ["`a`"] (by decide) rfl rfl).1
      (by decide)
  · have h := (claim_C4_batch_uniformity { table := "t" } [("a", GoValue.int 1)]
      [[("a", GoValue.int 2)]] "`t`" ["`a`"] (by decide) rfl rfl).2
      (by decide)
    rw [h]
    rfl


/-! ## Claims: injection immunity and placeholder balance -/


theorem takeWhile_all {p : Char → Bool} {l : List Char} :
    ∀ c ∈ l.takeWhile p, p c = true := fun _ hc => List.mem_takeWhile_imp hc

theorem aliasRegexMatch_chars {s n a : String} (h : aliasRegexMatch s = some (n, a)) :
    ∀ c ∈ s.data, isIdentChar c = true ∨ isGoSpace c = true := by
  intro c hc
  have hdec1 : s.data = s.data.takeWhile isIdentChar ++ s.data.dropWhile isIdentChar :=
    (List.takeWhile_append_dropWhile _ _).symm
  unfold aliasRegexMatch at h
  dsimp only at h
  split at h
  · cases h
  split at h
  · cases h
  rename_i hident hsp
  -- c is in ident1, in the space run, or in rest2
  rw [hdec1] at hc
  rcases List.mem_append.mp hc with hc1 | hc1
  · exact Or.inl (List.mem_takeWhile_imp hc1)
  have hdec2 : s.data.dropWhile isIdentChar =
      (s.data.dropWhile isIdentChar).takeWhile isGoSpace ++
      (s.data.dropWhile isIdentChar).dropWhile isGoSpace :=
    (List.takeWhile_append_dropWhile _ _).symm
  rw [hdec2] at hc1
  rcases List.mem_append.mp hc1 with hc2 | hc2
  · exact Or.inr (List.mem_takeWhile_imp hc2)
  -- c ∈ rest2
  split at h
  · rename_i x s2 rest3 heq
    rw [heq] at hc2
    split at h
    · rename_i hguard
      split at h
      · rename_i hr4
        cases h
        simp only [Bool.and_eq_true, Bool.or_eq_true, decide_eq_true_eq] at hguard
        rcases List.mem_cons.mp hc2 with rfl | hc3
        · rcases hguard.1.1 with rfl | rfl <;> exact Or.inl (by decide)
        rcases List.mem_cons.mp hc3 with rfl | hc4
        · rcases hguard.1.2 with rfl | rfl <;> exact Or.inl (by decide)
        have hdec3 : rest3 = rest3.takeWhile isGoSpace ++ rest3.dropWhile isGoSpace :=
          (List.takeWhile_append_dropWhile _ _).symm
        rw [hdec3] at hc4
        rcases List.mem_append.mp hc4 with hc5 | hc5
        · exact Or.inr (List.mem_takeWhile_imp hc5)
        · exact Or.inl (matchIdentPart_chars hr4 _ hc5)
      · cases h
    · split at h
      · rename_i hr2
        cases h
        rw [← heq] at hc2
        exact Or.inl (matchIdentPart_chars hr2 _ hc2)
      · cases h
  · split at h
    · rename_i hr2
      cases h
      exact Or.inl (matchIdentPart_chars hr2 _ hc2)
    · cases h

/-- A hard metacharacter: not an identifier character, not a dot, not
whitespace.  Covers `;`, `-` (from `--`), quotes and backticks. -/
def isHardMeta (c : Char) : Bool :=
  !(isIdentChar c) && !(c = '.') && !(isGoSpace c)

/-- C1 (amended): for every string containing a character that is neither
an identifier character (`[A-Za-z0-9_]`) nor `.` — e.g. `;`, `-`, quotes,
backticks — `ValidateIdentifier` returns an error and `Wrap` fails
emitting the empty string (`*` excepted); if the character is moreover not
whitespace, `WrapTable` and `CompileSelect` on that table also fail with
empty SQL output, so the string is never emitted into SQL. -/
theorem claim_C1_amended (s : String) (c : Char) (hmem : c ∈ s.data) :
    ((isIdentChar c = false ∧ c ≠ '.') → s ≠ "*" →
      (ValidateIdentifier s ≠ none ∧ Wrap s = ("", (Wrap s).2) ∧ (Wrap s).2 ≠ none)) ∧
    (isHardMeta c = true →
      ((WrapTable s).1 = "" ∧ (WrapTable s).2 ≠ none ∧
       (CompileSelect { table := s }).1 = "" ∧
       (CompileSelect { table := s }).2.1 = [] ∧
       (CompileSelect { table := s }).2.2 ≠ none)) := by
  have hvalid : (isIdentChar c = false ∧ c ≠ '.') → ValidateIdentifier s ≠ none := by
    rintro ⟨hic, hdot⟩ hnone
    rcases validateIdentifier_chars hnone _ hmem with hi | hd
    · rw [hic] at hi
      cases hi
    · exact hdot hd
  constructor
  · rintro hmc hstar
    refine ⟨hvalid hmc, ?_, ?_⟩
    · unfold Wrap
      rw [if_neg hstar]
      cases he : ValidateIdentifier s with
      | none => exact absurd he (hvalid hmc)
      | some e => rfl
    · unfold Wrap
      rw [if_neg hstar]
      cases he : ValidateIdentifier s with
      | none => exact absurd he (hvalid hmc)
      | some e => simp
  · intro hhard
    simp only [isHardMeta, Bool.and_eq_true, Bool.not_eq_true', decide_eq_true_eq,
      Bool.not_eq_true] at hhard
    obtain ⟨⟨hic, hdot⟩, hspace⟩ := hhard
    have hmc : isIdentChar c = false ∧ c ≠ '.' := ⟨hic, by simpa using hdot⟩
    have halias : aliasRegexMatch s = none := by
      cases ha : aliasRegexMatch s with
      | none => rfl
      | some p =>
        rcases p with ⟨n, al⟩
        rcases aliasRegexMatch_chars ha _ hmem with hi | hs
        · rw [hic] at hi
          cases hi
        · rw [hspace] at hs
          cases hs
    have hsne : s ≠ "" := by
      intro he
      rw [he] at hmem
      cases hmem
    have htwa : ∃ e, ValidateTableWithAlias s = ("", "", some e) := by
      unfold ValidateTableWithAlias
      rw [if_neg hsne, halias]
      cases he : ValidateIdentifier s with
      | none => exact absurd he (hvalid hmc)
      | some e => exact ⟨e, rfl⟩
    obtain ⟨e, he⟩ := htwa
    have hwt : WrapTable s = ("", some e) := by
      unfold WrapTable
      rw [he]
    have hsel : CompileSelect { table := s } = ("", [], some e) := by
      unfold CompileSelect compileSelectE
      rw [if_neg hsne]
      simp [selectColumnsPart, hwt, exceptOfPair, Bind.bind, Except.bind]
    refine ⟨by rw [hwt], by rw [hwt]; simp, by rw [hsel], by rw [hsel], by rw [hsel]; simp⟩

/-- C1 (counterexample to the claim as stated): the bare SQL keyword
`UNION` is accepted by `ValidateIdentifier` (the reserved-word list is not
consulted) and `Wrap` succeeds, emitting it backtick-quoted — while the
keyword-adjacent payload `x UNION SELECT` is rejected everywhere. -/
theorem claim_C1_counterexample :
    ValidateIdentifier "UNION" = none ∧ Wrap "UNION" = ("`UNION`", none) ∧
    ValidateIdentifier "x UNION SELECT" ≠ none ∧
    WrapTable "x UNION SELECT" = ("", (WrapTable "x UNION SELECT").2) ∧
    (WrapTable "x UNION SELECT").2 ≠ none := by
  refine ⟨rfl, rfl, by decide, rfl, by decide⟩

theorem claim_C1_witness :
    (ValidateIdentifier "users;DROP TABLE x" ≠ none ∧
      Wrap "users;DROP TABLE x" = ("", (Wrap "users;DROP TABLE x").2) ∧
      (Wrap "users;DROP TABLE x").2 ≠ none) ∧
    ((WrapTable "users;DROP TABLE x").1 = "" ∧
      (WrapTable "users;DROP TABLE x").2 ≠ none ∧
      (CompileSelect { table := "users;DROP TABLE x" }).1 = "" ∧
      (CompileSelect { table := "users;DROP TABLE x" }).2.1 = [] ∧
      (CompileSelect { table := "users;DROP TABLE x" }).2.2 ≠ none) := by
  constructor
  · exact (claim_C1_amended "users;DROP TABLE x" ';' (by decide)).1 (by decide) (by decide)
  · exact (claim_C1_amended "users;DROP TABLE x" ';' (by decide)).2 (by decide)



/-- C2 (amended): for every builder whose raw escape hatches are
placeholder-balanced — `Raw` where/having clauses carry exactly as many
`?` as bindings, raw column/ORDER BY/direction/join-type strings and the
aggregate function name contain no `?` — every compile method that
returns a nil error returns SQL whose `?` count equals the length of the
returned argument list. -/
theorem claim_C2_amended (b : Builder) (data : DataMap) (rows : List DataMap)
    (column fn : String) (updateColumns : List String)
    (hcols : ∀ c ∈ b.columns, countQ c = 0)
    (hords : ∀ o ∈ b.orders, countQ o.raw = 0 ∧ countQ o.direction = 0)
    (hjoins : ∀ j ∈ b.joins, countQ j.type = 0)
    (hw : clausesBalanced b.wheres = true)
    (hh : clausesBalanced b.having = true)
    (hfn : countQ fn = 0) :
    ((CompileSelect b).2.2 = none →
      countQ (CompileSelect b).1 = (CompileSelect b).2.1.length) ∧
    ((CompileInsert b data).2.2 = none →
      countQ (CompileInsert b data).1 = (CompileInsert b data).2.1.length) ∧
    ((CompileInsertBatch b rows).2.2 = none →
      countQ (CompileInsertBatch b rows).1 = (CompileInsertBatch b rows).2.1.length) ∧
    ((CompileUpdate b data).2.2 = none →
      countQ (CompileUpdate b data).1 = (CompileUpdate b data).2.1.length) ∧
    ((CompileDelete b).2.2 = none →
      countQ (CompileDelete b).1 = (CompileDelete b).2.1.length) ∧
    ((CompileExists b).2.2 = none →
      countQ (CompileExists b).1 = (CompileExists b).2.1.length) ∧
    ((CompileCount b column).2.2 = none →
      countQ (CompileCount b column).1 = (CompileCount b column).2.1.length) ∧
    ((CompileAggregate b fn column).2.2 = none →
      countQ (CompileAggregate b fn column).1 = (CompileAggregate b fn column).2.1.length) ∧
    ((CompileUpsert b data updateColumns).2.2 = none →
      countQ (CompileUpsert b data updateColumns).1 =
        (CompileUpsert b data updateColumns).2.1.length) := by
  refine ⟨?_, ?_, ?_, ?_, ?_, ?_, ?_, ?_, ?_⟩
  · intro h
    cases he : compileSelectE b with
    | error e => simp [CompileSelect, he] at h
    | ok p =>
      rcases p with ⟨s, a⟩
      simp only [CompileSelect, he]
      exact compileSelectE_countQ he hcols hords hjoins hw hh
  · intro h
    cases he : compileInsertE b data with
    | error e => simp [CompileInsert, he] at h
    | ok p =>
      rcases p with ⟨s, a⟩
      simp only [CompileInsert, he]
      exact compileInsertE_countQ he
  · intro h
    cases he : compileInsertBatchE b rows with
    | error e => simp [CompileInsertBatch, he] at h
    | ok p =>
      rcases p with ⟨s, a⟩
      simp only [CompileInsertBatch, he]
      exact compileInsertBatchE_countQ he
  · intro h
    cases he : compileUpdateE b data with
    | error e => simp [CompileUpdate, he] at h
    | ok p =>
      rcases p with ⟨s, a⟩
      simp only [CompileUpdate, he]
      exact compileUpdateE_countQ he hw
  · intro h
    cases he : compileDeleteE b with
    | error e => simp [CompileDelete, he] at h
    | ok p =>
      rcases p with ⟨s, a⟩
      simp only [CompileDelete, he]
      exact compileDeleteE_countQ he hw
  · intro h
    cases he : compileExistsE b with
    | error e => simp [CompileExists, he] at h
    | ok p =>
      rcases p with ⟨s, a⟩
      simp only [CompileExists, he]
      exact compileExistsE_countQ he hw
  · intro h
    cases he : compileCountE b column with
    | error e => simp [CompileCount, he] at h
    | ok p =>
      rcases p with ⟨s, a⟩
      simp only [CompileCount, he]
      exact compileCountE_countQ he hw
  · intro h
    cases he : compileAggregateE b fn column with
    | error e => simp [CompileAggregate, he] at h
    | ok p =>
      rcases p with ⟨s, a⟩
      simp only [CompileAggregate, he]
      exact compileAggregateE_countQ he hfn hw
  · intro h
    cases he : compileUpsertE b data updateColumns with
    | error e => simp [CompileUpsert, he] at h
    | ok p =>
      rcases p with ⟨s, a⟩
      simp only [CompileUpsert, he]
      exact compileUpsertE_countQ he

/-- C2 (counterexample to the claim as stated): a builder holding the raw
where clause `a = ?` with no bindings compiles with a nil error to SQL
containing one `?` but an empty argument list. -/
theorem claim_C2_counterexample :
    (CompileSelect { table := "t", wheres := [.mk .raw .and "" "" .null [] [] "a = ?" []] }).2.2 = none ∧
    ¬ (countQ (CompileSelect { table := "t", wheres := [.mk .raw .and "" "" .null [] [] "a = ?" []] }).1 =
      (CompileSelect { table := "t", wheres := [.mk .raw .and "" "" .null [] [] "a = ?" []] }).2.1.length) := by
  have h : CompileSelect { table := "t", wheres := [.mk .raw .and "" "" .null [] [] "a = ?" []] } =
      ("SELECT * FROM `t` WHERE a = ?", [], none) := by
    simp [CompileSelect, compileSelectE, wherePart, compileWheres, compileWheresRest,
      compileWhere, selectColumnsPart, groupByPart, orderByPart]
    rfl
  rw [h]
  exact ⟨rfl, by decide⟩

theorem claim_C2_witness :
    countQ (CompileSelect { table := "t", wheres := [.mk .raw .and "" "" .null [] [] "a = ?" [GoValue.int 1]] }).1 =
      (CompileSelect { table := "t", wheres := [.mk .raw .and "" "" .null [] [] "a = ?" [GoValue.int 1]] }).2.1.length := by
  apply (claim_C2_amended _ [] [] "" "SUM" [] (by simp) (by simp) (by simp)
    ?_ ?_ (by decide)).1
  · have h : CompileSelect { table := "t", wheres := [.mk .raw .and "" "" .null [] [] "a = ?" [GoValue.int 1]] } =
        ("SELECT * FROM `t` WHERE a = ?", [GoValue.int 1], none) := by
      simp [CompileSelect, compileSelectE, wherePart, compileWheres, compileWheresRest,
        compileWhere, selectColumnsPart, groupByPart, orderByPart]
      rfl
    rw [h]
  · simp [clausesBalanced, clauseBalanced]
    decide
  · simp [clausesBalanced]

/-- C8: in the heap model of `Clone`, the cloned `WhereClause` structs
keep the original `Values` slice headers, so after an in-place write
through the original (`b.wheres[0].Values[0] = 2`) the clone's clause
dereferences to the mutated array — the clone is not an independent deep
copy of the inner `Values`/`Nested` slices, contradicting `Clone`'s
documented deep-copy contract. -/
theorem claim_C8_clone_shares_backing_arrays :
    cloneWheresGo [⟨.inOp, 0⟩] = [⟨.inOp, 0⟩] ∧
    readSlice [[GoValue.int 1]] 0 = [GoValue.int 1] ∧
    readSlice (writeSliceElem [[GoValue.int 1]] 0 0 (GoValue.int 2)) 0 = [GoValue.int 2] :=
  ⟨rfl, rfl, rfl⟩


/-- C4 (counterexample to the claim as stated): with an invalid table
name, `CompileInsertBatch` on inconsistent rows fails with the identifier
error — the table is wrapped before the per-row check runs — not with
`ErrInconsistentBatch`. -/
theorem claim_C4_counterexample :
    CompileInsertBatch { table := "bad;" } [[("a", GoValue.int 1)], [("b", GoValue.int 2)]] =
      ("", [], some (.identifier "bad;"
        "identifier contains invalid characters; only letters, numbers, underscores, and dots are allowed")) ∧
    (CompileInsertBatch { table := "bad;" }
        [[("a", GoValue.int 1)], [("b", GoValue.int 2)]]).2.2 ≠ some .inconsistentBatch :=
  ⟨rfl, by decide⟩

end FluentSQL
